import Mathlib

/-!
Verification development for the `hubber_xml` feed-ingestion program.

The Rust sources under `src/` are shallowly embedded below:

* `src/models.rs` — the `AVAILABLE` / `NOT_AVAILABLE` constants and the
  `NewProduct` / `Product` / `ModProduct` row types.
* `src/parser.rs` — `parse_offers`: the streaming XML loop is embedded as a
  fold over a list of offer elements (`OfferElem`), each carrying the offer
  tag's attributes and the inner event stream (start / text / end events)
  consumed by the nested loop of the source.  Progress-bar and I/O plumbing
  are not modelled.
* `src/process.rs` — `convert_offer_to_product`, `sync_products_chunk` and
  `mark_missing_as_unavailable`.  The MySQL store is modelled as a
  `List Product`; the diesel queries become filters over that list; the raw
  batched `UPDATE` statements become an explicit `UpdateQuery` list applied
  in order; `load` is modelled as returning rows in store order.

Numeric modelling: the `f32` price fields are modelled as rationals (`ℚ`)
and the `i8` / `i32` columns as `Int`; the standard-library numeric parsers
(`str::parse`) are modelled by plain decimal-numeral parsers
(`parseRat` / `parseInt`).  Timestamps (`NaiveDateTime`) are opaque `Nat`
values; durations are not modelled.  `u32` statistics counters are `Nat`.
-/

/-- `models.rs`: `pub const AVAILABLE: i8 = 1;` -/
def AVAILABLE : Int := 1

/-- `models.rs`: `pub const NOT_AVAILABLE: i8 = 0;` -/
def NOT_AVAILABLE : Int := 0

/-- `parser.rs`: the `Offer` struct accumulated by the parsing loop. -/
structure Offer where
  offer_id : String
  available : Int
  price : Option ℚ
  old_price : Option ℚ
  currency_id : Option String
  category_id : Option Int
  name : Option String
  description : Option String
  vendor : Option String
  vendor_code : Option String
deriving DecidableEq

/-- `parser.rs`: `Offer::new` — all scalar fields start absent. -/
def Offer.new (offer_id : String) (available : Int) : Offer :=
  ⟨offer_id, available, none, none, none, none, none, none, none, none⟩

/-- `models.rs`: the `NewProduct` insertable row. -/
structure NewProduct where
  offer_id : String
  hub_stock_id : String
  categoryId : Int
  name : String
  price : ℚ
  oldprice : Option ℚ
  currencyId : Option String
  available : Int
  description : Option String
deriving DecidableEq

/-- `models.rs`: the persisted `Product` row.  The raw update statements of
`process.rs` also write the `renew_date` and `to_renew` columns, so both are
part of the modelled row. -/
structure Product where
  id : Int
  offer_id : String
  hub_stock_id : Option String
  categoryId : Int
  name : String
  price : ℚ
  oldprice : Option ℚ
  currencyId : Option String
  available : Option Int
  description : Option String
  renew_date : Option Nat
  to_renew : Int
deriving DecidableEq

/-- `main.rs`: the subset of `Opts` that the core logic reads. -/
structure Opts where
  update_price : Bool
  update_available : Bool
  insert_new : Bool
  mark_missing_unavailable : Bool
deriving DecidableEq

/-- `main.rs`: `ProcessedStat` (durations are not modelled). -/
structure ProcessedStat where
  total_offers : Nat
  ignored_offers : Nat
  parsed_offers : Nat
  updated_price : Nat
  updated_available : Nat
  inserted_products : Nat
  marked_as_unavailable : Nat
deriving DecidableEq

/-- `process.rs`: `ProcessedProducts` per-chunk counters (duration dropped). -/
structure ProcessedProducts where
  updated_price : Nat
  updated_available : Nat
  inserted : Nat
deriving DecidableEq

/-- Decimal value of one digit character. -/
def digitVal (c : Char) : Option Nat :=
  if '0' ≤ c ∧ c ≤ '9' then some (c.toNat - '0'.toNat) else none

/-- Accumulating decimal read of a digit string. -/
def digitsVal : List Char → Nat → Option Nat
  | [], acc => some acc
  | c :: rest, acc =>
    match digitVal c with
    | some d => digitsVal rest (acc * 10 + d)
    | none => none

/-- A non-empty all-digit string read as a natural number. -/
def natOfDigits (cs : List Char) : Option Nat :=
  if cs.isEmpty then none else digitsVal cs 0

/-- Model of `str::parse::<i32>` restricted to plain decimal numerals:
an optional leading minus sign followed by digits. -/
def parseIntChars : List Char → Option Int
  | '-' :: rest => (natOfDigits rest).map (fun n => -(n : Int))
  | cs => (natOfDigits cs).map (fun n => (n : Int))

/-- `parseIntChars` on a string's characters. -/
def parseInt (s : String) : Option Int := parseIntChars s.data

/-- Split a character list at the dots (model of `splitOn "."`). -/
def splitDot : List Char → List Char → List (List Char)
  | [], acc => [acc.reverse]
  | '.' :: rest, acc => acc.reverse :: splitDot rest []
  | c :: rest, acc => splitDot rest (c :: acc)

/-- Model of `str::parse::<f32>` restricted to plain decimal numerals
`[-]digits[.digits]`, read exactly as a rational. -/
def parseRat (s : String) : Option ℚ :=
  match splitDot s.data [] with
  | [a] => (parseIntChars a).map (fun n => (n : ℚ))
  | [a, b] =>
    match parseIntChars a, natOfDigits b with
    | some n, some frac =>
      let fq : ℚ := (frac : ℚ) / ((10 : ℚ) ^ b.length)
      some (if a.head? = some '-' then (n : ℚ) - fq else (n : ℚ) + fq)
    | _, _ => none
  | _ => none

/-- `parser.rs` lines 107–118: the match on the `available` attribute value.
The error value is the formatted fatal message naming the offending literal. -/
def parse_available (v : String) : Except String Int :=
  if v = "" then .ok NOT_AVAILABLE
  else if v = "true" ∨ v = "1" then .ok AVAILABLE
  else if v = "false" ∨ v = "0" then .ok NOT_AVAILABLE
  else .error ("Unknown \"available\" attribute: " ++ v)

/-- `parser.rs` lines 99–121: the fold over the `offer` tag's attributes,
accumulating the `id` value and the parsed `available` flag; started with
`none` and `NOT_AVAILABLE`.  An unknown `available` literal aborts. -/
def parseOfferAttrs : List (String × String) → Option String → Int →
    Except String (Option String × Int)
  | [], oid, av => .ok (oid, av)
  | (k, v) :: rest, oid, av =>
    if k = "id" then parseOfferAttrs rest (some v) av
    else if k = "available" then
      match parse_available v with
      | .ok a => parseOfferAttrs rest oid a
      | .error e => .error e
    else parseOfferAttrs rest oid av

/-- `parser.rs`: the `OfferFields` cursor of the inner loop. -/
inductive OfferFields where
  | noField | price | oldPrice | currencyId | categoryId
  | nameField | description | vendor | vendorCode
deriving DecidableEq

/-- `parser.rs` lines 132–160: reaction to a start tag inside an offer;
unknown tags leave the cursor unchanged. -/
def startField (tag : String) (cur : OfferFields) : OfferFields :=
  if tag = "price" then .price
  else if tag = "oldprice" then .oldPrice
  else if tag = "currencyId" then .currencyId
  else if tag = "categoryId" then .categoryId
  else if tag = "name" then .nameField
  else if tag = "description" then .description
  else if tag = "vendor" then .vendor
  else if tag = "vendorCode" then .vendorCode
  else cur

/-- `parser.rs` lines 161–208: reaction to a text event, dispatching on the
current field cursor.  Unparsable price / categoryId text leaves the field
as it was (warning only); `oldprice` is overwritten with the parse result
(`value.parse().ok()`); a currencyId outside the allow-set is dropped with a
warning, and the empty currencyId defaults to `"UAH"`. -/
def applyText (offer : Offer) (field : OfferFields) (value : String) : Offer :=
  match field with
  | .price =>
    match parseRat value with
    | some p => { offer with price := some p }
    | none => offer
  | .oldPrice => { offer with old_price := parseRat value }
  | .currencyId =>
    if value = "UAH" ∨ value = "USD" ∨ value = "EUR" ∨ value = "RUB" ∨
        value = "BYR" ∨ value = "KZT" then
      { offer with currency_id := some value }
    else if value = "" then { offer with currency_id := some "UAH" }
    else offer
  | .categoryId =>
    match parseInt value with
    | some c => { offer with category_id := some c }
    | none => offer
  | .nameField => { offer with name := some value }
  | .description => { offer with description := some value }
  | .vendor => { offer with vendor := some value }
  | .vendorCode => { offer with vendor_code := some value }
  | .noField => offer

/-- The XML events the inner offer loop of `parser.rs` reacts to. -/
inductive OfferEvent where
  | start : String → OfferEvent
  | text : String → OfferEvent
  | endTag : String → OfferEvent
deriving DecidableEq

/-- `parser.rs` lines 130–230: the inner loop over an offer's events.
`endTag "offer"` breaks; any other end tag resets the field cursor. -/
def parseOfferEvents : Offer → OfferFields → List OfferEvent → Offer
  | offer, _, [] => offer
  | offer, field, .start t :: rest => parseOfferEvents offer (startField t field) rest
  | offer, field, .text v :: rest => parseOfferEvents (applyText offer field v) field rest
  | offer, _, .endTag t :: rest =>
    if t = "offer" then offer else parseOfferEvents offer .noField rest

/-- One `offer` element of the feed: its attribute list and the event
stream consumed by the inner loop (up to the closing `offer` tag). -/
structure OfferElem where
  attrs : List (String × String)
  events : List OfferEvent
deriving DecidableEq

/-- `process.rs` lines 20–47: `convert_offer_to_product` — rejects when
name, category id or price is absent. -/
def convert_offer_to_product (offer : Offer) : Option NewProduct :=
  match offer.name with
  | none => none
  | some name =>
    match offer.category_id with
    | none => none
    | some category_id =>
      match offer.price with
      | none => none
      | some price =>
        some { offer_id := offer.offer_id
               hub_stock_id := offer.offer_id
               available := offer.available
               categoryId := category_id
               name := name
               price := price
               oldprice := offer.old_price
               currencyId := offer.currency_id
               description := offer.description }

/-- `CHUNK_SIZE` from `main.rs` (also the literal `1000` bucket bound in
`parser.rs`). -/
def CHUNK_SIZE : Nat := 1000

/-- Model of `HashSet::insert` on the observed-id set: membership-preserving
append. -/
def hashInsert (l : List String) (s : String) : List String :=
  if s ∈ l then l else l ++ [s]

/-- The mutable state threaded through the `parse_offers` loop of
`parser.rs`: the statistics, the current products bucket, the chunks handed
to `sync_products_chunk` so far (in order), and the observed-id set. -/
structure ParseState where
  stat : ProcessedStat
  bucket : List NewProduct
  chunks : List (List NewProduct)
  all_offer_ids : List String
deriving DecidableEq

/-- The zero-initialised `ProcessedStat::default()`. -/
def initStat : ProcessedStat := ⟨0, 0, 0, 0, 0, 0, 0⟩

/-- The parse loop's initial state. -/
def initParseState : ParseState := ⟨initStat, [], [], []⟩

/-- `parser.rs` lines 232–251: bookkeeping after one offer has been fully
read — counters, validator gate, bucket push, observed-id insert, and the
bucket flush at 1000. -/
def recordOffer (opts : Opts) (st : ParseState) (offer : Offer) : ParseState :=
  let st := { st with stat.total_offers := st.stat.total_offers + 1 }
  let st :=
    match convert_offer_to_product offer with
    | some product =>
      { st with
        bucket := st.bucket ++ [product]
        stat.parsed_offers := st.stat.parsed_offers + 1
        all_offer_ids :=
          if opts.mark_missing_unavailable then
            hashInsert st.all_offer_ids product.offer_id
          else st.all_offer_ids }
    | none => { st with stat.ignored_offers := st.stat.ignored_offers + 1 }
  if st.bucket.length = CHUNK_SIZE then
    { st with chunks := st.chunks ++ [st.bucket], bucket := [] }
  else st

/-- `parser.rs` lines 98–252: processing of one `offer` element — attribute
scan (which can abort on a bad `available` literal), skip of offers without
an id, inner event loop, then `recordOffer`. -/
def parseStep (opts : Opts) (st : ParseState) (elem : OfferElem) :
    Except String ParseState :=
  match parseOfferAttrs elem.attrs none NOT_AVAILABLE with
  | .error e => .error e
  | .ok (none, _) => .ok st
  | .ok (some oid, av) =>
    .ok (recordOffer opts st (parseOfferEvents (Offer.new oid av) .noField elem.events))

/-- The document loop of `parse_offers`, folded over the feed's offer
elements; a fatal error short-circuits and discards the state. -/
def parseElems (opts : Opts) : List OfferElem → ParseState → Except String ParseState
  | [], st => .ok st
  | e :: rest, st =>
    match parseStep opts st e with
    | .error err => .error err
    | .ok st' => parseElems opts rest st'

/-- `parser.rs` lines 93–284: the full parse phase — the document loop plus
the trailing flush of a non-empty bucket. -/
def parseChunks (opts : Opts) (feed : List OfferElem) : Except String ParseState :=
  match parseElems opts feed initParseState with
  | .error e => .error e
  | .ok st =>
    .ok (if st.bucket.isEmpty then st
         else { st with chunks := st.chunks ++ [st.bucket], bucket := [] })

/-- `models.rs`: `ModProduct` — the change-set accumulated for one matched
record (`none` = field not part of the update). -/
structure ModProduct where
  available : Option Int
  price : Option ℚ
  oldprice : Option (Option ℚ)
  currencyId : Option (Option String)
deriving DecidableEq

/-- `ModProduct::default()`. -/
def emptyMod : ModProduct := ⟨none, none, none, none⟩

/-- One raw `UPDATE … WHERE id = …` statement emitted by
`sync_products_chunk`: the changed fields plus the always-written
`renew_date` and `to_renew = 1` columns. -/
structure UpdateQuery where
  product_id : Int
  changes : ModProduct
  renew_date : Nat
deriving DecidableEq

/-- `process.rs` lines 88–108: the matched-record branch of the chunk loop.
Returns the contributions to the availability / price counters (0 or 1
each) and the change set when `should_update` ended up true. -/
def syncMatched (opts : Opts) (p : NewProduct) (r : Product) :
    (Nat × Nat) × Option ModProduct :=
  let availDiff : Bool := decide (some p.available ≠ r.available)
  let priceDiff : Bool :=
    decide (p.price ≠ r.price ∨ p.oldprice ≠ r.oldprice ∨ p.currencyId ≠ r.currencyId)
  let ca : Nat := if availDiff then 1 else 0
  let cp : Nat := if priceDiff then 1 else 0
  let su1 : Bool := availDiff && opts.update_available
  let m1 : ModProduct :=
    if su1 then { emptyMod with available := some p.available } else emptyMod
  let su2 : Bool := su1 || (priceDiff && opts.update_price)
  let m2 : ModProduct :=
    if priceDiff && opts.update_price then
      { m1 with price := some p.price, oldprice := some p.oldprice,
                currencyId := some p.currencyId }
    else m1
  ((ca, cp), if su2 then some m2 else none)

/-- Effect of one raw update statement on one row: fields named in the
change set are overwritten, `renew_date` and `to_renew` are always set,
rows with a different id are untouched. -/
def applyUpdateQuery (u : UpdateQuery) (r : Product) : Product :=
  if r.id = u.product_id then
    { r with
      available := match u.changes.available with
        | some a => some a
        | none => r.available
      price := match u.changes.price with
        | some q => q
        | none => r.price
      oldprice := match u.changes.oldprice with
        | some v => v
        | none => r.oldprice
      currencyId := match u.changes.currencyId with
        | some v => v
        | none => r.currencyId
      renew_date := some u.renew_date
      to_renew := 1 }
  else r

/-- `conn.batch_execute` of the concatenated update statements: each
statement is applied to the whole table, in order. -/
def applyUpdates (store : List Product) (us : List UpdateQuery) : List Product :=
  us.foldl (fun s u => s.map (applyUpdateQuery u)) store

/-- The `hub_stock_id.eq_any(offer_ids)` filter: SQL `NULL` never matches. -/
def hubMatches (ids : List String) (r : Product) : Bool :=
  match r.hub_stock_id with
  | some h => ids.contains h
  | none => false

/-- The `offer_id_to_found_product` HashMap lookup: keyed by
`hub_stock_id`, later rows overwrite earlier ones, hence the last matching
row of the loaded list wins. -/
def findMatch (found : List Product) (h : String) : Option Product :=
  (found.filter (fun r => r.hub_stock_id = some h)).getLast?

/-- The diesel insert of a `NewProduct`: the store assigns internal id `i`;
`renew_date` / `to_renew` take their column defaults. -/
def newProductRow (i : Int) (p : NewProduct) : Product :=
  { id := i
    offer_id := p.offer_id
    hub_stock_id := some p.hub_stock_id
    categoryId := p.categoryId
    name := p.name
    price := p.price
    oldprice := p.oldprice
    currencyId := p.currencyId
    available := some p.available
    description := p.description
    renew_date := none
    to_renew := 0 }

/-- Batch insert with consecutively assigned internal ids starting at `i`. -/
def insertRows : Int → List NewProduct → List Product
  | _, [] => []
  | i, p :: rest => newProductRow i p :: insertRows (i + 1) rest

/-- Result of one `sync_products_chunk` call: the counters, the raw update
statements issued, the rows physically inserted, and the store afterwards. -/
structure SyncResult where
  stat : ProcessedProducts
  updates : List UpdateQuery
  inserted_rows : List Product
  store : List Product
deriving DecidableEq

/-- `process.rs` lines 57–167: `sync_products_chunk`.  One bulk lookup for
the chunk's offer ids, the per-candidate diff loop producing counters and
batched update statements, the batched update execution, then the gated
batch insert of unmatched candidates (counted regardless of the flag).
`nextId` models the auto-increment cursor for inserted rows. -/
def sync_products_chunk (store : List Product) (chunk : List NewProduct)
    (opts : Opts) (date : Nat) (nextId : Int) : SyncResult × Int :=
  let offer_ids := chunk.map (fun p => p.offer_id)
  let found := store.filter (hubMatches offer_ids)
  let loopRes : (Nat × Nat) × List UpdateQuery :=
    chunk.foldl
      (fun acc p =>
        match findMatch found p.hub_stock_id with
        | some r =>
          let res := syncMatched opts p r
          ((acc.1.1 + res.1.1, acc.1.2 + res.1.2),
           acc.2 ++ (match res.2 with
                     | some m => [⟨r.id, m, date⟩]
                     | none => []))
        | none => acc)
      ((0, 0), [])
  let store1 := applyUpdates store loopRes.2
  let insert_products := chunk.filter (fun p => (findMatch found p.hub_stock_id).isNone)
  let inserted_rows := if opts.insert_new then insertRows nextId insert_products else []
  (⟨⟨loopRes.1.2, loopRes.1.1, insert_products.length⟩,
    loopRes.2, inserted_rows, store1 ++ inserted_rows⟩,
   nextId + (if opts.insert_new then (insert_products.length : Int) else 0))

/-- The per-run accumulation of chunk syncs in `parse_offers`: counters are
summed; the store and the id cursor are threaded through. -/
def run_sync (opts : Opts) (date : Nat) :
    List (List NewProduct) → List Product × Int × ProcessedProducts →
    List Product × Int × ProcessedProducts
  | [], acc => acc
  | c :: cs, (store, nid, stats) =>
    let res := sync_products_chunk store c opts date nid
    run_sync opts date cs
      (res.1.store, res.2,
       ⟨stats.updated_price + res.1.stat.updated_price,
        stats.updated_available + res.1.stat.updated_available,
        stats.inserted + res.1.stat.inserted⟩)

/-- `process.rs` lines 218–223: one page of the paginated scan — available
rows beyond the cursor, ordered by ascending id, limited to `CHUNK_SIZE`.
Only the `(id, hub_stock_id)` columns are read by the source; the model
keeps whole rows. -/
def scanPage (store : List Product) (cursor : Int) : List Product :=
  ((store.filter (fun r => decide (cursor < r.id ∧ r.available = some AVAILABLE))).insertionSort
      (fun a b => a.id ≤ b.id)).take CHUNK_SIZE

/-- The batched `available = NOT_AVAILABLE` update for the page's missing
hub ids, applied to the whole table. -/
def markMissingRows (store : List Product) (missing : List String) : List Product :=
  store.map (fun r =>
    if (match r.hub_stock_id with
        | some h => missing.contains h
        | none => false) then
      { r with available := some NOT_AVAILABLE }
    else r)

/-- The missing ids collected from one page: hub ids of page rows that are
not in the observed set (`NULL` hub ids are skipped). -/
def pageMissing (ids : List String) (page : List Product) : List String :=
  page.foldl
    (fun acc r =>
      match r.hub_stock_id with
      | some h => if ids.contains h then acc else acc ++ [h]
      | none => acc)
    []

/-- `process.rs` lines 217–252: the sweep's cursor loop.  The `fuel`
argument is only an upper bound on the number of pages (each non-empty page
strictly advances past at least one available row, so `store.length + 1`
always suffices); the loop stops as soon as a page comes back empty. -/
def sweepLoop (ids : List String) :
    Nat → List Product → Int → Nat → List Product × Nat
  | 0, store, _, count => (store, count)
  | fuel + 1, store, cursor, count =>
    let page := scanPage store cursor
    if page.isEmpty then (store, count)
    else
      let last := ((page.getLast?).map (fun r => r.id)).getD cursor
      let missing := pageMissing ids page
      if missing.isEmpty then sweepLoop ids fuel store last count
      else
        sweepLoop ids fuel (markMissingRows store missing) last
          (count + missing.length)

/-- `process.rs` lines 190–259: `mark_missing_as_unavailable` — the paginated
sweep starting at cursor 0, returning the mutated store and the count of
pushed missing ids. -/
def mark_missing_as_unavailable (store : List Product) (ids : List String) :
    List Product × Nat :=
  sweepLoop ids (store.length + 1) store 0 0

/-- Auto-increment cursor at the start of a run: one past the largest id in
the store (0 when the store is empty). -/
def maxId (store : List Product) : Int :=
  store.foldl (fun m r => max m r.id) 0

/-- Final outcome of one run: the printed statistics and the store state. -/
structure RunResult where
  stat : ProcessedStat
  store : List Product
deriving DecidableEq

/-- `parser.rs` `parse_offers` end to end over a feed of offer elements:
parse phase (which fixes the chunk sequence), the interleaved chunk syncs
(modelled as a fold over the recorded chunks — syncing does not feed back
into parsing), and the optional missing sweep. -/
def process_offers (opts : Opts) (feed : List OfferElem) (store : List Product)
    (date : Nat) : Except String RunResult :=
  match parseChunks opts feed with
  | .error e => .error e
  | .ok pst =>
    let synced := run_sync opts date pst.chunks (store, maxId store + 1, ⟨0, 0, 0⟩)
    let stat :=
      { pst.stat with
        updated_price := synced.2.2.updated_price
        updated_available := synced.2.2.updated_available
        inserted_products := synced.2.2.inserted }
    if opts.mark_missing_unavailable then
      let swept := mark_missing_as_unavailable synced.1 pst.all_offer_ids
      .ok ⟨{ stat with marked_as_unavailable := swept.2 }, swept.1⟩
    else .ok ⟨stat, synced.1⟩

/-- Extract the success value of the parse phase (used only to name witness
values; total because the fallback is the initial state). -/
def exParse : Except String ParseState → ParseState
  | .ok st => st
  | .error _ => initParseState

/-- Extract the success value of a full run (fallback: empty run). -/
def exRun : Except String RunResult → RunResult
  | .ok r => r
  | .error _ => ⟨initStat, []⟩

/-- Agreement between a catalog candidate and a persisted row on the fields
the diff engine compares. -/
def agrees (p : NewProduct) (r : Product) : Prop :=
  r.available = some p.available ∧ r.price = p.price ∧
    r.oldprice = p.oldprice ∧ r.currencyId = p.currencyId

/-- The row a candidate with offer id `h` is reconciled against: the last
store row carrying hub id `h` (mirrors `findMatch` after the bulk lookup). -/
def globalMatch (store : List Product) (h : String) : Option Product :=
  (store.filter (fun r => r.hub_stock_id = some h)).getLast?

/-- The id accumulated by the attribute loop: the last `id` attribute wins. -/
def lastIdAttr (attrs : List (String × String)) : Option String :=
  attrs.foldl (fun o kv => if kv.1 = "id" then some kv.2 else o) none

/-- A row the missing sweep is due to mark: currently available, carrying a
hub id that is not in the observed set. -/
def sweepTarget (ids : List String) (r : Product) : Bool :=
  decide (r.available = some AVAILABLE) &&
    (match r.hub_stock_id with
     | some h => !(ids.contains h)
     | none => false)

/-- The sweep's due rows relative to a pagination cursor. -/
def sweepTargetFrom (ids : List String) (cursor : Int) (r : Product) : Bool :=
  sweepTarget ids r && decide (cursor < r.id)

/-- Marking a row not-available (the effect of the sweep's batch update on
one row). -/
def markRow (r : Product) : Product :=
  { r with available := some NOT_AVAILABLE }

/-- Sequential application of a list of raw update statements to one row. -/
def applyAll (us : List UpdateQuery) (r : Product) : Product :=
  us.foldl (fun x u => applyUpdateQuery u x) r

/-- An `Opts` value with every write flag enabled and the sweep flag `m`. -/
def allOn (m : Bool) : Opts := ⟨true, true, true, m⟩

/-- A minimal valid offer element (id attribute; name, price and category
children), used to build concrete feeds. -/
def validElem (i : String) : OfferElem :=
  ⟨[("id", i)],
   [.start "name", .text "n", .start "price", .text "1",
    .start "categoryId", .text "7"]⟩

/-- A feed of `CHUNK_SIZE + 1` identical valid offers. -/
def c8Feed : List OfferElem := List.replicate (CHUNK_SIZE + 1) (validElem "a")

/-- The sweep page loop's contribution of one row to the missing-id list. -/
def missingEntry (ids : List String) (r : Product) : Option String :=
  match r.hub_stock_id with
  | some h => if ids.contains h then none else some h
  | none => none

/-- Whether one page row contributes a missing id. -/
def missingFlag (ids : List String) (r : Product) : Bool :=
  (missingEntry ids r).isSome

/-- A four-row catalog: rows A, B, C available, row D not available. -/
def c6Store : List Product :=
  [⟨1, "A", some "A", 1, "a", 1, none, none, some 1, none, none, 0⟩,
   ⟨2, "B", some "B", 1, "b", 1, none, none, some 1, none, none, 0⟩,
   ⟨3, "C", some "C", 1, "c", 1, none, none, some 1, none, none, 0⟩,
   ⟨4, "D", some "D", 1, "d", 1, none, none, some 0, none, none, 0⟩]

/-- Whether the sweep's batch update hits a row: its hub id is among the
collected missing ids. -/
def markedB (missing : List String) (r : Product) : Bool :=
  match r.hub_stock_id with
  | some h => missing.contains h
  | none => false

/-- A feed repeating the same offer id with two different prices. -/
def c5Feed : List OfferElem :=
  [⟨[("id", "X"), ("available", "1")],
    [.start "name", .text "n", .start "price", .text "1",
     .start "categoryId", .text "7"]⟩,
   ⟨[("id", "X"), ("available", "1")],
    [.start "name", .text "n", .start "price", .text "2",
     .start "categoryId", .text "7"]⟩]

/-- A one-row store already carrying the repeated hub id `X`. -/
def c5Store : List Product :=
  [⟨1, "X", some "X", 7, "n", 5, none, none, some 1, none, none, 0⟩]

/-- First run of the idempotence witness scenario. -/
def c5wRun1 : RunResult := exRun (process_offers (allOn false) [validElem "a"] [] 0)

/-- Second run of the idempotence witness scenario, on the first run's
store. -/
def c5wRun2 : RunResult :=
  exRun (process_offers (allOn false) [validElem "a"] c5wRun1.store 0)

/-- An error while reading the offending element's attributes aborts the
whole fold, whatever comes after. -/
theorem parseElems_abort (opts : Opts) (suffix : List OfferElem) (bad : OfferElem)
    (e : String) (hbad : parseOfferAttrs bad.attrs none NOT_AVAILABLE = .error e) :
    ∀ (pre : List OfferElem) (st st' : ParseState),
      parseElems opts pre st = .ok st' →
      parseElems opts (pre ++ bad :: suffix) st = .error e := by
  intro pre
  induction pre with
  | nil =>
    intro st st' _
    simp only [List.nil_append, parseElems, parseStep, hbad]
  | cons p ps ih =>
    intro st st' h
    simp only [List.cons_append, parseElems] at h ⊢
    cases hp : parseStep opts st p with
    | error err => rw [hp] at h; exact absurd h (by simp)
    | ok st1 => rw [hp] at h; exact ih st1 st' h

/-- C1: the availability attribute literals "1" and "true" parse to
available and "0", "false", "" to not-available; any other literal yields
the fatal error naming the offending value, and once an element's
attributes produce that error the whole run ends with it — the result is
the same error for every suffix, so no further offer is processed. -/
theorem C1_availability_fail_fast :
    parse_available "1" = .ok AVAILABLE ∧
    parse_available "true" = .ok AVAILABLE ∧
    parse_available "0" = .ok NOT_AVAILABLE ∧
    parse_available "false" = .ok NOT_AVAILABLE ∧
    parse_available "" = .ok NOT_AVAILABLE ∧
    (∀ v : String, v ≠ "" → v ≠ "true" → v ≠ "1" → v ≠ "false" → v ≠ "0" →
      parse_available v = .error ("Unknown \"available\" attribute: " ++ v)) ∧
    (∀ (opts : Opts) (pre suffix : List OfferElem) (bad : OfferElem)
        (st st' : ParseState) (e : String),
      parseElems opts pre st = .ok st' →
      parseOfferAttrs bad.attrs none NOT_AVAILABLE = .error e →
      parseElems opts (pre ++ bad :: suffix) st = .error e) := by
  refine ⟨rfl, rfl, rfl, rfl, rfl, ?_, ?_⟩
  · intro v h1 h2 h3 h4 h5
    simp [parse_available, h1, h2, h3, h4, h5]
  · intro opts pre suffix bad st st' e h hbad
    exact parseElems_abort opts suffix bad e hbad pre st st' h

/-- C1 witness: a run hitting available="yes" aborts with the error naming
"yes", with a further valid offer still pending in the suffix. -/
theorem C1_availability_fail_fast_witness :
    parse_available "yes" = .error ("Unknown \"available\" attribute: " ++ "yes") ∧
    parseElems (allOn true)
        ([] ++ (⟨[("id", "b"), ("available", "yes")], []⟩ : OfferElem) ::
          [⟨[("id", "c"), ("available", "1")], []⟩]) initParseState =
      .error ("Unknown \"available\" attribute: " ++ "yes") :=
  ⟨C1_availability_fail_fast.2.2.2.2.2.1 "yes" (by decide) (by decide) (by decide)
      (by decide) (by decide),
   C1_availability_fail_fast.2.2.2.2.2.2 (allOn true) []
      [⟨[("id", "c"), ("available", "1")], []⟩] ⟨[("id", "b"), ("available", "yes")], []⟩
      initParseState initParseState ("Unknown \"available\" attribute: " ++ "yes")
      rfl rfl⟩

/-- C2 counterexample: an offer element with available="" is accepted, but
its recorded availability is not-available rather than available. -/
theorem C2_counterexample :
    parseOfferAttrs [("id", "x"), ("available", "")] none NOT_AVAILABLE =
      .ok (some "x", NOT_AVAILABLE) ∧
    parseOfferAttrs [("id", "x"), ("available", "")] none NOT_AVAILABLE ≠
      .ok (some "x", AVAILABLE) := by
  refine ⟨rfl, ?_⟩
  rw [show parseOfferAttrs [("id", "x"), ("available", "")] none NOT_AVAILABLE =
        .ok (some "x", NOT_AVAILABLE) from rfl]
  simp [AVAILABLE, NOT_AVAILABLE]

/-- C2 (amended): the empty availability literal is accepted and maps to
not-available; an offer element carrying it parses with availability
not-available. -/
theorem C2_empty_available_is_not_available :
    parse_available "" = .ok NOT_AVAILABLE ∧
    ∀ i : String,
      parseOfferAttrs [("id", i), ("available", "")] none NOT_AVAILABLE =
        .ok (some i, NOT_AVAILABLE) :=
  ⟨rfl, fun _ => rfl⟩

/-- C3: the validator returns none exactly when name, category id or price
is absent, and the bookkeeping step bumps the ignored counter exactly on
rejection and the parsed counter exactly on acceptance. -/
theorem C3_validator_counters (o : Offer) (opts : Opts) (st : ParseState) :
    (convert_offer_to_product o = none ↔
      (o.name = none ∨ o.category_id = none ∨ o.price = none)) ∧
    (recordOffer opts st o).stat.ignored_offers =
      (if (convert_offer_to_product o).isSome then st.stat.ignored_offers
       else st.stat.ignored_offers + 1) ∧
    (recordOffer opts st o).stat.parsed_offers =
      (if (convert_offer_to_product o).isSome then st.stat.parsed_offers + 1
       else st.stat.parsed_offers) := by
  refine ⟨?_, ?_, ?_⟩
  · rcases hn : o.name with _ | n <;> rcases hc : o.category_id with _ | c <;>
      rcases hp : o.price with _ | q <;> simp [convert_offer_to_product, hn, hc, hp]
  · cases h : convert_offer_to_product o <;>
      simp only [recordOffer, h, Option.isSome] <;> split <;> simp
  · cases h : convert_offer_to_product o <;>
      simp only [recordOffer, h, Option.isSome] <;> split <;> simp

/-- C7 counterexample: an empty currencyId text does not leave the currency
field absent — it is defaulted to "UAH". -/
theorem C7_counterexample :
    (applyText (Offer.new "x" NOT_AVAILABLE) .currencyId "").currency_id = some "UAH" ∧
    (applyText (Offer.new "x" NOT_AVAILABLE) .currencyId "").currency_id ≠ none := by
  refine ⟨rfl, ?_⟩
  rw [show (applyText (Offer.new "x" NOT_AVAILABLE) .currencyId "").currency_id =
        some "UAH" from rfl]
  simp

/-- C7 (amended): a non-empty currencyId outside the allow-set leaves the
offer completely unchanged (so the currency field stays absent if it was,
the offer is not rejected for this reason, and nothing aborts); the empty
currencyId instead defaults the currency to "UAH". -/
theorem C7_unknown_currency (o : Offer) (v : String)
    (hv : v ∉ ["UAH", "USD", "EUR", "RUB", "BYR", "KZT"]) (hne : v ≠ "") :
    applyText o .currencyId v = o ∧
    (applyText o .currencyId "").currency_id = some "UAH" := by
  constructor
  · simp only [List.mem_cons, List.not_mem_nil, or_false, not_or] at hv
    obtain ⟨h1, h2, h3, h4, h5, h6⟩ := hv
    simp [applyText, h1, h2, h3, h4, h5, h6, hne]
  · rfl

/-- C7 witness: the out-of-set literal "XXX" leaves the offer untouched. -/
theorem C7_unknown_currency_witness :
    ("XXX" ∉ ["UAH", "USD", "EUR", "RUB", "BYR", "KZT"]) ∧ "XXX" ≠ "" ∧
    (applyText (Offer.new "x" NOT_AVAILABLE) .currencyId "XXX" =
        Offer.new "x" NOT_AVAILABLE ∧
      (applyText (Offer.new "x" NOT_AVAILABLE) .currencyId "").currency_id =
        some "UAH") :=
  ⟨by decide, by decide,
   C7_unknown_currency (Offer.new "x" NOT_AVAILABLE) "XXX" (by decide) (by decide)⟩

/-- The attribute fold over a list without any "available" key just
accumulates the last id value. -/
theorem parseOfferAttrs_no_available :
    ∀ (attrs : List (String × String)) (oid : Option String) (av : Int),
      (∀ kv ∈ attrs, kv.1 ≠ "available") →
      parseOfferAttrs attrs oid av =
        .ok (attrs.foldl (fun o kv => if kv.1 = "id" then some kv.2 else o) oid, av) := by
  intro attrs
  induction attrs with
  | nil => intro oid av _; rfl
  | cons kv rest ih =>
    obtain ⟨k, v⟩ := kv
    intro oid av h
    have hk : k ≠ "available" := h (k, v) (List.mem_cons_self _ _)
    have hrest := fun x hx => h x (List.mem_cons_of_mem _ hx)
    by_cases hid : k = "id"
    · simp [parseOfferAttrs, hid, ih _ av hrest]
    · simp [parseOfferAttrs, hid, hk, ih _ av hrest]

/-- The attribute fold splits over list append. -/
theorem parseOfferAttrs_append (l1 l2 : List (String × String)) :
    ∀ (oid : Option String) (av : Int),
      parseOfferAttrs (l1 ++ l2) oid av =
        match parseOfferAttrs l1 oid av with
        | .ok (o, a) => parseOfferAttrs l2 o a
        | .error e => .error e := by
  induction l1 with
  | nil => intro oid av; rfl
  | cons kv rest ih =>
    obtain ⟨k, v⟩ := kv
    intro oid av
    by_cases h1 : k = "id"
    · simp [parseOfferAttrs, h1, ih]
    · by_cases h2 : k = "available"
      · cases hpa : parse_available v with
        | ok a => simp [parseOfferAttrs, h1, h2, hpa, ih]
        | error e => simp [parseOfferAttrs, h1, h2, hpa]
      · simp [parseOfferAttrs, h1, h2, ih]

/-- An id attribute in the list makes the accumulated id non-absent. -/
theorem lastIdAttr_ne_none (attrs : List (String × String)) (i : String)
    (hid : ("id", i) ∈ attrs) : lastIdAttr attrs ≠ none := by
  have step : ∀ (l : List (String × String)) (v0 : String),
      l.foldl (fun o kv => if kv.1 = "id" then some kv.2 else o) (some v0) ≠ none := by
    intro l
    induction l with
    | nil => intro v0; simp
    | cons kv rest ih =>
      intro v0
      obtain ⟨k, v⟩ := kv
      by_cases hk : k = "id" <;> simp [hk, ih]
  have main : ∀ (l : List (String × String)) (oid : Option String), ("id", i) ∈ l →
      l.foldl (fun o kv => if kv.1 = "id" then some kv.2 else o) oid ≠ none := by
    intro l
    induction l with
    | nil => intro oid h; exact absurd h (List.not_mem_nil _)
    | cons kv rest ih =>
      intro oid h
      rcases List.mem_cons.mp h with heq | hmem
      · subst heq
        simp only [List.foldl_cons, if_pos rfl]
        exact step rest i
      · rw [List.foldl_cons]
        exact ih _ hmem
  exact main attrs none hid

/-- C10: an offer element with an id attribute and no availability
attribute parses with the not-available default, and the result is
identical to the same element with an explicit available="false". -/
theorem C10_missing_available_defaults_not_available
    (attrs : List (String × String)) (i : String)
    (hno : ∀ kv ∈ attrs, kv.1 ≠ "available") (hid : ("id", i) ∈ attrs) :
    parseOfferAttrs attrs none NOT_AVAILABLE = .ok (lastIdAttr attrs, NOT_AVAILABLE) ∧
    lastIdAttr attrs ≠ none ∧
    parseOfferAttrs (attrs ++ [("available", "false")]) none NOT_AVAILABLE =
      parseOfferAttrs attrs none NOT_AVAILABLE := by
  have h1 : parseOfferAttrs attrs none NOT_AVAILABLE =
      .ok (lastIdAttr attrs, NOT_AVAILABLE) :=
    parseOfferAttrs_no_available attrs none NOT_AVAILABLE hno
  refine ⟨h1, lastIdAttr_ne_none attrs i hid, ?_⟩
  rw [parseOfferAttrs_append, h1]
  rfl

/-- C10 witness: the one-attribute element with only an id. -/
theorem C10_missing_available_witness :
    (∀ kv ∈ [("id", "a")], kv.1 ≠ "available") ∧ ("id", "a") ∈ [("id", "a")] ∧
    (parseOfferAttrs [("id", "a")] none NOT_AVAILABLE =
        .ok (lastIdAttr [("id", "a")], NOT_AVAILABLE) ∧
      lastIdAttr [("id", "a")] ≠ none ∧
      parseOfferAttrs ([("id", "a")] ++ [("available", "false")]) none NOT_AVAILABLE =
        parseOfferAttrs [("id", "a")] none NOT_AVAILABLE) :=
  ⟨by decide, by decide,
   C10_missing_available_defaults_not_available [("id", "a")] "a" (by decide) (by decide)⟩

/-- C9: for a matched record an update is issued exactly when some field
group is both enabled and changed; applied to the record, the issued update
sets exactly the enabled-and-changed groups plus the renewal timestamp and
the needs-renew marker, and leaves the record's name, category id,
description, external id and internal id as they were. -/
theorem C9_update_frame (opts : Opts) (p : NewProduct) (r : Product) (date : Nat) :
    ((syncMatched opts p r).2).map (fun m => applyUpdateQuery ⟨r.id, m, date⟩ r) =
      (if (some p.available ≠ r.available ∧ opts.update_available = true) ∨
          ((p.price ≠ r.price ∨ p.oldprice ≠ r.oldprice ∨ p.currencyId ≠ r.currencyId) ∧
            opts.update_price = true) then
        some { r with
               available :=
                 (if some p.available ≠ r.available ∧ opts.update_available = true
                  then some p.available else r.available)
               price :=
                 (if (p.price ≠ r.price ∨ p.oldprice ≠ r.oldprice ∨
                      p.currencyId ≠ r.currencyId) ∧ opts.update_price = true
                  then p.price else r.price)
               oldprice :=
                 (if (p.price ≠ r.price ∨ p.oldprice ≠ r.oldprice ∨
                      p.currencyId ≠ r.currencyId) ∧ opts.update_price = true
                  then p.oldprice else r.oldprice)
               currencyId :=
                 (if (p.price ≠ r.price ∨ p.oldprice ≠ r.oldprice ∨
                      p.currencyId ≠ r.currencyId) ∧ opts.update_price = true
                  then p.currencyId else r.currencyId)
               renew_date := some date
               to_renew := 1 }
      else none) := by
  by_cases ha : some p.available ≠ r.available <;>
    by_cases hp : (p.price ≠ r.price ∨ p.oldprice ≠ r.oldprice ∨
      p.currencyId ≠ r.currencyId) <;>
    cases hu : opts.update_available <;> cases hq : opts.update_price <;>
    simp [syncMatched, applyUpdateQuery, emptyMod, ha, hp, hu, hq]

/-- The matched-diff loop of `sync_products_chunk`, characterised as two
`countP` counters and a flat list of update statements. -/
theorem sync_loop_spec (opts : Opts) (date : Nat) (found : List Product) :
    ∀ (chunk : List NewProduct) (acc : (Nat × Nat) × List UpdateQuery),
      chunk.foldl
        (fun acc p =>
          match findMatch found p.hub_stock_id with
          | some r =>
            let res := syncMatched opts p r
            ((acc.1.1 + res.1.1, acc.1.2 + res.1.2),
             acc.2 ++ (match res.2 with
                       | some m => [⟨r.id, m, date⟩]
                       | none => []))
          | none => acc)
        acc =
      ((acc.1.1 + chunk.countP (fun p =>
          match findMatch found p.hub_stock_id with
          | some r => decide (some p.available ≠ r.available)
          | none => false),
        acc.1.2 + chunk.countP (fun p =>
          match findMatch found p.hub_stock_id with
          | some r => decide (p.price ≠ r.price ∨ p.oldprice ≠ r.oldprice ∨
              p.currencyId ≠ r.currencyId)
          | none => false)),
       acc.2 ++ chunk.flatMap (fun p =>
          match findMatch found p.hub_stock_id with
          | some r =>
            (match (syncMatched opts p r).2 with
             | some m => [⟨r.id, m, date⟩]
             | none => [])
          | none => [])) := by
  intro chunk
  induction chunk with
  | nil => intro acc; simp
  | cons p rest ih =>
    intro acc
    rw [List.foldl_cons, List.countP_cons, List.countP_cons, List.flatMap_cons, ih]
    cases hm : findMatch found p.hub_stock_id with
    | none => simp [hm]
    | some r =>
      simp only [hm, syncMatched]
      by_cases ha : some p.available ≠ r.available <;>
        by_cases hpr : (p.price ≠ r.price ∨ p.oldprice ≠ r.oldprice ∨
          p.currencyId ≠ r.currencyId) <;>
        simp [ha, hpr, List.append_assoc] <;> omega

/-- The chunk counters, characterised independently of flags, date and id
cursor. -/
theorem sync_stat_spec (store : List Product) (chunk : List NewProduct)
    (opts : Opts) (date : Nat) (nid : Int) :
    (sync_products_chunk store chunk opts date nid).1.stat =
      ⟨chunk.countP (fun p =>
          match findMatch (store.filter (hubMatches (chunk.map (fun q => q.offer_id))))
              p.hub_stock_id with
          | some r => decide (p.price ≠ r.price ∨ p.oldprice ≠ r.oldprice ∨
              p.currencyId ≠ r.currencyId)
          | none => false),
        chunk.countP (fun p =>
          match findMatch (store.filter (hubMatches (chunk.map (fun q => q.offer_id))))
              p.hub_stock_id with
          | some r => decide (some p.available ≠ r.available)
          | none => false),
        chunk.countP (fun p =>
          (findMatch (store.filter (hubMatches (chunk.map (fun q => q.offer_id))))
            p.hub_stock_id).isNone)⟩ := by
  simp only [sync_products_chunk]
  rw [sync_loop_spec]
  simp [List.countP_eq_length_filter]

/-- C4: chunk counters are flag-independent and determined purely by the
field comparisons — matched rows are counted when availability differs or
when the price group differs, unmatched rows are counted as new — while
physical effects are gated: with both update flags off no update statement
is issued, and with the insert flag off no row is inserted. -/
theorem C4_counts_unconditional_writes_gated (store : List Product)
    (chunk : List NewProduct) (opts opts' : Opts) (date date' : Nat)
    (nid nid' : Int) (b1 b2 b3 b4 b5 : Bool) :
    ((sync_products_chunk store chunk opts date nid).1.stat =
      (sync_products_chunk store chunk opts' date' nid').1.stat) ∧
    ((sync_products_chunk store chunk opts date nid).1.stat.updated_available =
      chunk.countP (fun p =>
        match findMatch (store.filter (hubMatches (chunk.map (fun q => q.offer_id))))
            p.hub_stock_id with
        | some r => decide (some p.available ≠ r.available)
        | none => false)) ∧
    ((sync_products_chunk store chunk opts date nid).1.stat.updated_price =
      chunk.countP (fun p =>
        match findMatch (store.filter (hubMatches (chunk.map (fun q => q.offer_id))))
            p.hub_stock_id with
        | some r => decide (p.price ≠ r.price ∨ p.oldprice ≠ r.oldprice ∨
            p.currencyId ≠ r.currencyId)
        | none => false)) ∧
    ((sync_products_chunk store chunk opts date nid).1.stat.inserted =
      chunk.countP (fun p =>
        (findMatch (store.filter (hubMatches (chunk.map (fun q => q.offer_id))))
          p.hub_stock_id).isNone)) ∧
    ((sync_products_chunk store chunk ⟨false, false, b1, b2⟩ date nid).1.updates = []) ∧
    ((sync_products_chunk store chunk ⟨b3, b4, false, b5⟩ date nid).1.inserted_rows = []) := by
  refine ⟨?_, ?_, ?_, ?_, ?_, ?_⟩
  · rw [sync_stat_spec, sync_stat_spec]
  · rw [sync_stat_spec]
  · rw [sync_stat_spec]
  · rw [sync_stat_spec]
  · have hnone : ∀ (p : NewProduct) (r : Product),
        (syncMatched ⟨false, false, b1, b2⟩ p r).2 = none := by
      intro p r; simp [syncMatched]
    simp only [sync_products_chunk]
    rw [sync_loop_spec]
    simp only [List.nil_append]
    rw [List.flatMap_eq_nil_iff]
    intro p _
    cases hm : findMatch (store.filter
        (hubMatches (chunk.map (fun q => q.offer_id)))) p.hub_stock_id with
    | none => rfl
    | some r => simp [hnone]
  · unfold sync_products_chunk
    simp

/-- The bookkeeping step keeps the bucket below the chunk bound, keeps every
emitted chunk at exactly the chunk bound, and keeps the parsed counter equal
to `CHUNK_SIZE * emitted + bucket`. -/
theorem recordOffer_invariant (opts : Opts) (st : ParseState) (o : Offer)
    (h1 : ∀ c ∈ st.chunks, c.length = CHUNK_SIZE)
    (h2 : st.bucket.length < CHUNK_SIZE)
    (h3 : st.stat.parsed_offers = CHUNK_SIZE * st.chunks.length + st.bucket.length) :
    (∀ c ∈ (recordOffer opts st o).chunks, c.length = CHUNK_SIZE) ∧
    (recordOffer opts st o).bucket.length < CHUNK_SIZE ∧
    (recordOffer opts st o).stat.parsed_offers =
      CHUNK_SIZE * (recordOffer opts st o).chunks.length +
        (recordOffer opts st o).bucket.length := by
  unfold recordOffer
  cases hc : convert_offer_to_product o with
  | none =>
    have hne : ¬ st.bucket.length = CHUNK_SIZE := Nat.ne_of_lt h2
    simp only [hc]
    simp only [if_neg hne]
    exact ⟨h1, h2, h3⟩
  | some prod =>
    simp only [hc]
    by_cases hlen : (st.bucket ++ [prod]).length = CHUNK_SIZE
    · simp only [if_pos hlen]
      refine ⟨?_, ?_, ?_⟩
      · intro c hcmem
        rcases List.mem_append.mp hcmem with hm | hm
        · exact h1 c hm
        · rw [List.mem_singleton.mp hm]; exact hlen
      · simpa using Nat.pos_of_ne_zero (by simp [CHUNK_SIZE])
      · simp only [List.length_append, List.length_nil]
        simp only [List.length_append, List.length_singleton] at hlen
        simp [h3, Nat.mul_add, ← hlen]
        omega
    · simp only [if_neg hlen]
      have hlt : (st.bucket ++ [prod]).length < CHUNK_SIZE := by
        simp only [List.length_append, List.length_singleton] at hlen ⊢
        omega
      refine ⟨h1, hlt, ?_⟩
      simp only [List.length_append, List.length_singleton]
      simp [h3]
      omega

/-- The parse loop preserves the bucket/chunk/parsed-counter invariant. -/
theorem parseElems_invariant (opts : Opts) :
    ∀ (feed : List OfferElem) (st st' : ParseState),
      parseElems opts feed st = .ok st' →
      (∀ c ∈ st.chunks, c.length = CHUNK_SIZE) →
      st.bucket.length < CHUNK_SIZE →
      st.stat.parsed_offers = CHUNK_SIZE * st.chunks.length + st.bucket.length →
      (∀ c ∈ st'.chunks, c.length = CHUNK_SIZE) ∧
      st'.bucket.length < CHUNK_SIZE ∧
      st'.stat.parsed_offers = CHUNK_SIZE * st'.chunks.length + st'.bucket.length := by
  intro feed
  induction feed with
  | nil =>
    intro st st' h h1 h2 h3
    cases h
    exact ⟨h1, h2, h3⟩
  | cons e rest ih =>
    intro st st' h h1 h2 h3
    rw [parseElems] at h
    cases hs : parseStep opts st e with
    | error er => rw [hs] at h; cases h
    | ok st1 =>
      rw [hs] at h
      rw [parseStep] at hs
      cases ha : parseOfferAttrs e.attrs none NOT_AVAILABLE with
      | error er => rw [ha] at hs; cases hs
      | ok pr =>
        rw [ha] at hs
        obtain ⟨oid, av⟩ := pr
        cases oid with
        | none =>
          cases hs
          exact ih _ st' h h1 h2 h3
        | some i =>
          cases hs
          obtain ⟨g1, g2, g3⟩ := recordOffer_invariant opts st
            (parseOfferEvents (Offer.new i av) .noField e.events) h1 h2 h3
          exact ih _ st' h g1 g2 g3

/-- C8: a feed the parse phase accepts with exactly `CHUNK_SIZE + 1` valid
offers produces exactly two reconciliation chunks: one of `CHUNK_SIZE`
(emitted when the bucket filled) and a trailing one of a single candidate. -/
theorem C8_chunking (opts : Opts) (feed : List OfferElem) (pst : ParseState)
    (h : parseChunks opts feed = .ok pst)
    (hn : pst.stat.parsed_offers = CHUNK_SIZE + 1) :
    pst.chunks.map List.length = [CHUNK_SIZE, 1] := by
  rw [parseChunks] at h
  cases he : parseElems opts feed initParseState with
  | error e => rw [he] at h; cases h
  | ok st =>
    rw [he] at h
    cases h
    obtain ⟨i1, i2, i3⟩ := parseElems_invariant opts feed initParseState st he
      (by intro c hcm; simp [initParseState] at hcm)
      (by simp [initParseState, CHUNK_SIZE])
      (by simp [initParseState, initStat])
    have hstat : st.stat.parsed_offers = CHUNK_SIZE + 1 := by
      by_cases hb : st.bucket.isEmpty <;> simpa [hb] using hn
    rw [i3] at hstat
    have hCS : CHUNK_SIZE = 1000 := rfl
    have hk : st.chunks.length = 1 ∧ st.bucket.length = 1 := by
      rw [hCS] at hstat i2
      constructor <;> omega
    obtain ⟨c, hc⟩ := List.length_eq_one.mp hk.1
    have hbe : st.bucket.isEmpty = false := by
      cases hbu : st.bucket with
      | nil => rw [hbu] at hk; simp at hk
      | cons x xs => rfl
    simp only [hbe, Bool.false_eq_true, if_false, hc, List.map_append, List.map_cons]
    have hclen : c.length = CHUNK_SIZE := i1 c (by rw [hc]; exact List.mem_singleton_self c)
    simp [hclen, hk.2]

/-- Every feed element built by `validElem` is accepted and bumps the
parsed counter by one. -/
theorem parseStep_validElem_parsed (opts : Opts) (st : ParseState) :
    ∃ st', parseStep opts st (validElem "a") = .ok st' ∧
      st'.stat.parsed_offers = st.stat.parsed_offers + 1 := by
  refine ⟨_, rfl, ?_⟩
  have hconv : convert_offer_to_product
      (parseOfferEvents (Offer.new "a" NOT_AVAILABLE) .noField (validElem "a").events) =
      some ⟨"a", "a", 7, "n", 1, none, none, NOT_AVAILABLE, none⟩ := by rfl
  show (recordOffer opts st
    (parseOfferEvents (Offer.new "a" NOT_AVAILABLE) .noField (validElem "a").events)).stat.parsed_offers =
    st.stat.parsed_offers + 1
  simp only [recordOffer, hconv]
  split <;> simp

/-- A replicated valid feed is accepted; the parsed counter counts it. -/
theorem parseElems_replicate_valid (opts : Opts) :
    ∀ (n : Nat) (st : ParseState),
      ∃ st', parseElems opts (List.replicate n (validElem "a")) st = .ok st' ∧
        st'.stat.parsed_offers = st.stat.parsed_offers + n := by
  intro n
  induction n with
  | zero => intro st; exact ⟨st, rfl, rfl⟩
  | succ k ih =>
    intro st
    obtain ⟨st1, hs1, hp1⟩ := parseStep_validElem_parsed opts st
    obtain ⟨st', hs', hp'⟩ := ih st1
    refine ⟨st', ?_, by rw [hp', hp1]; omega⟩
    rw [List.replicate_succ, parseElems, hs1]
    exact hs'

/-- Going from a successful document loop to the parse phase's result. -/
theorem parseChunks_of_parseElems (opts : Opts) (feed : List OfferElem)
    (st : ParseState) (h : parseElems opts feed initParseState = .ok st) :
    parseChunks opts feed =
      .ok (if st.bucket.isEmpty then st
           else { st with chunks := st.chunks ++ [st.bucket], bucket := [] }) := by
  rw [parseChunks, h]

/-- C8 witness: the concrete 1001-offer feed yields chunk sizes 1000, 1. -/
theorem C8_chunking_witness :
    parseChunks (allOn true) c8Feed = .ok (exParse (parseChunks (allOn true) c8Feed)) ∧
    (exParse (parseChunks (allOn true) c8Feed)).stat.parsed_offers = CHUNK_SIZE + 1 ∧
    (exParse (parseChunks (allOn true) c8Feed)).chunks.map List.length = [CHUNK_SIZE, 1] := by
  obtain ⟨st, hok, hp⟩ :=
    parseElems_replicate_valid (allOn true) (CHUNK_SIZE + 1) initParseState
  have hok' : parseElems (allOn true) c8Feed initParseState = .ok st := hok
  have hps := parseChunks_of_parseElems (allOn true) c8Feed st hok'
  have hparsed : (if st.bucket.isEmpty then st
      else { st with chunks := st.chunks ++ [st.bucket], bucket := [] }).stat.parsed_offers =
      CHUNK_SIZE + 1 := by
    have h0 : initParseState.stat.parsed_offers = 0 := rfl
    rw [h0] at hp
    by_cases hb : st.bucket.isEmpty <;> simp [hb, hp]
  rw [hps]
  exact ⟨rfl, hparsed, C8_chunking (allOn true) c8Feed _ hps hparsed⟩

/-- The page fold collecting missing ids, as a `filterMap`. -/
theorem pageMissing_eq_filterMap (ids : List String) (page : List Product) :
    pageMissing ids page = page.filterMap (missingEntry ids) := by
  have gen : ∀ (l : List Product) (acc : List String),
      l.foldl (fun acc r =>
        match r.hub_stock_id with
        | some h => if ids.contains h then acc else acc ++ [h]
        | none => acc) acc =
      acc ++ l.filterMap (missingEntry ids) := by
    intro l
    induction l with
    | nil => intro acc; simp
    | cons r rest ih =>
      intro acc
      rw [List.foldl_cons, List.filterMap_cons]
      cases hh : r.hub_stock_id with
      | none =>
        have he : missingEntry ids r = none := by simp [missingEntry, hh]
        simp only [hh, he]
        rw [ih]
      | some h =>
        by_cases hc : ids.contains h
        · have hm : h ∈ ids := by simpa using hc
          have he : missingEntry ids r = none := by simp [missingEntry, hh, hm]
          simp only [hh, if_pos hc, he]
          rw [ih]
        · have hm : h ∉ ids := by simpa using hc
          have he : missingEntry ids r = some h := by simp [missingEntry, hh, hm]
          simp only [hh, if_neg hc, he]
          rw [ih]
          simp
  exact gen page []

/-- Membership in the collected missing ids. -/
theorem mem_pageMissing (ids : List String) (page : List Product) (h : String) :
    h ∈ pageMissing ids page ↔
      ∃ r ∈ page, r.hub_stock_id = some h ∧ ids.contains h = false := by
  rw [pageMissing_eq_filterMap, List.mem_filterMap]
  constructor
  · rintro ⟨r, hr, he⟩
    cases hh : r.hub_stock_id with
    | none =>
      have hnone : missingEntry ids r = none := by simp [missingEntry, hh]
      rw [hnone] at he
      cases he
    | some h0 =>
      by_cases hc : ids.contains h0 = true
      · have hm : h0 ∈ ids := by simpa using hc
        have hnone : missingEntry ids r = none := by simp [missingEntry, hh, hm]
        rw [hnone] at he
        cases he
      · have hm : h0 ∉ ids := by simpa using hc
        have hsome : missingEntry ids r = some h0 := by simp [missingEntry, hh, hm]
        rw [hsome] at he
        have hh0 : h0 = h := Option.some_inj.mp he
        subst hh0
        have hcf : ids.contains h0 = false := by
          revert hc; cases ids.contains h0 <;> simp
        exact ⟨r, hr, hh, hcf⟩
  · rintro ⟨r, hr, hh, hc⟩
    refine ⟨r, hr, ?_⟩
    have hm : h ∉ ids := by simpa using hc
    simp [missingEntry, hh, hm]

/-- Length of the collected missing ids as a page count. -/
theorem pageMissing_length (ids : List String) (page : List Product) :
    (pageMissing ids page).length = page.countP (missingFlag ids) := by
  rw [pageMissing_eq_filterMap]
  induction page with
  | nil => rfl
  | cons r rest ih =>
    rw [List.filterMap_cons, List.countP_cons]
    cases he : missingEntry ids r with
    | none =>
      have hf : missingFlag ids r = false := by simp [missingFlag, he]
      simp only [he, hf, ih]
      simp
    | some h =>
      have hf : missingFlag ids r = true := by simp [missingFlag, he]
      simp only [he, hf]
      simp [ih]

/-- Marking with an empty missing list changes nothing. -/
theorem markMissingRows_nil (store : List Product) :
    markMissingRows store [] = store := by
  unfold markMissingRows
  have : ∀ r ∈ store,
      (if (match r.hub_stock_id with
           | some h => List.contains [] h
           | none => false) = true then { r with available := some NOT_AVAILABLE }
       else r) = r := by
    intro r _
    cases r.hub_stock_id <;> simp
  rw [List.map_congr_left this]
  simp

/-- The batch update as a pointwise map over the whole table. -/
theorem markMissingRows_eq_map (store : List Product) (missing : List String) :
    markMissingRows store missing =
      store.map (fun r => if markedB missing r then markRow r else r) := by
  unfold markMissingRows markRow markedB
  rfl

/-- Two distinct store rows cannot carry the same hub id when the store's
hub ids are free of duplicates. -/
theorem hub_nodup_inj :
    ∀ {l : List Product},
      (l.filterMap (fun r => r.hub_stock_id)).Nodup →
      ∀ {a : Product}, a ∈ l → ∀ {b : Product}, b ∈ l → ∀ {h : String},
        a.hub_stock_id = some h → b.hub_stock_id = some h → a = b := by
  intro l
  induction l with
  | nil =>
    intro _ a ha
    exact absurd ha (List.not_mem_nil a)
  | cons x t ih =>
    intro hnd a ha b hb h hah hbh
    rw [List.filterMap_cons] at hnd
    cases hx : x.hub_stock_id with
    | none =>
      rw [hx] at hnd
      rcases List.mem_cons.mp ha with rfl | ha'
      · rw [hah] at hx; cases hx
      · rcases List.mem_cons.mp hb with rfl | hb'
        · rw [hbh] at hx; cases hx
        · exact ih hnd ha' hb' hah hbh
    | some hx0 =>
      rw [hx] at hnd
      have hnd' := List.nodup_cons.mp hnd
      rcases List.mem_cons.mp ha with rfl | ha'
      · rcases List.mem_cons.mp hb with rfl | hb'
        · rfl
        · exfalso
          apply hnd'.1
          have hx0h : hx0 = h := by
            rw [hah] at hx
            exact (Option.some_inj.mp hx).symm
          rw [hx0h]
          exact List.mem_filterMap.mpr ⟨b, hb', hbh⟩
      · rcases List.mem_cons.mp hb with rfl | hb'
        · exfalso
          apply hnd'.1
          have hx0h : hx0 = h := by
            rw [hbh] at hx
            exact (Option.some_inj.mp hx).symm
          rw [hx0h]
          exact List.mem_filterMap.mpr ⟨a, ha', hah⟩
        · exact ih hnd'.2 ha' hb' hah hbh

/-- A strict `countP` comparison from one witness satisfying the larger
predicate only. -/
theorem countP_lt_of_witness {α : Type} (Q P : α → Bool) :
    ∀ (l : List α),
      (∀ a ∈ l, Q a = true → P a = true) →
      ∀ q, q ∈ l → P q = true → Q q = false →
      l.countP Q < l.countP P := by
  intro l
  induction l with
  | nil => intro _ q hq; exact absurd hq (List.not_mem_nil q)
  | cons x t ih =>
    intro himp q hq hPq hQq
    rw [List.countP_cons, List.countP_cons]
    have hle : t.countP Q ≤ t.countP P :=
      List.countP_mono_left (fun a ha => himp a (List.mem_cons_of_mem x ha))
    rcases List.mem_cons.mp hq with rfl | hqt
    · rw [hPq, hQq]
      have h10 : (if (true = true) then 1 else 0) = 1 := by simp
      have h00 : (if (false = true) then 1 else 0) = 0 := by simp
      rw [h10, h00]
      omega
    · have hlt := ih (fun a ha => himp a (List.mem_cons_of_mem x ha)) q hqt hPq hQq
      have hx : (if Q x = true then 1 else 0) ≤ (if P x = true then 1 else 0) := by
        by_cases hQx : Q x = true
        · rw [if_pos hQx, if_pos (himp x (List.mem_cons_self x t) hQx)]
        · rw [if_neg hQx]
          omega
      omega

/-- An empty page means no row is in pagination range. -/
theorem scanPage_eq_nil_iff (store : List Product) (cursor : Int) :
    scanPage store cursor = [] ↔
      store.filter (fun r =>
        decide (cursor < r.id ∧ r.available = some AVAILABLE)) = [] := by
  unfold scanPage
  rw [List.take_eq_nil_iff]
  constructor
  · rintro (hcs | hsort)
    · exact absurd hcs (by simp [CHUNK_SIZE])
    · have hperm := List.perm_insertionSort
        (fun a b : Product => a.id ≤ b.id)
        (store.filter (fun r => decide (cursor < r.id ∧ r.available = some AVAILABLE)))
      rw [hsort] at hperm
      exact (List.Perm.nil_eq hperm).symm
  · intro hf
    right
    rw [hf]
    rfl

/-- Rows of an id-sorted list are bounded by the last element's id. -/
theorem sorted_id_le_getLast :
    ∀ (l : List Product),
      List.Pairwise (fun a b : Product => a.id ≤ b.id) l →
      ∀ (hne : l ≠ []) (r : Product), r ∈ l → r.id ≤ (l.getLast hne).id := by
  intro l hs hne r hr
  have hsplit := List.dropLast_append_getLast hne
  rw [← hsplit] at hs hr
  rcases List.mem_append.mp hr with hd | hl
  · exact (List.pairwise_append.mp hs).2.2 r hd _ (List.mem_singleton_self _)
  · rw [List.mem_singleton.mp hl]

/-- One non-empty iteration of the sweep loop, in both missing branches. -/
theorem sweepLoop_succ (ids : List String) (fuel : Nat) (store : List Product)
    (cursor : Int) (count : Nat)
    (hne : (scanPage store cursor).isEmpty = false) :
    sweepLoop ids (fuel + 1) store cursor count =
      sweepLoop ids fuel
        (markMissingRows store (pageMissing ids (scanPage store cursor)))
        (((scanPage store cursor).getLast?.map (fun r => r.id)).getD cursor)
        (count + (pageMissing ids (scanPage store cursor)).length) := by
  rw [sweepLoop]
  simp only [hne, Bool.false_eq_true, if_false]
  by_cases hmi : (pageMissing ids (scanPage store cursor)).isEmpty
  · have hnil : pageMissing ids (scanPage store cursor) = [] := List.isEmpty_iff.mp hmi
    rw [if_pos hmi, hnil, markMissingRows_nil]
    simp
  · rw [if_neg hmi]

/-- Characterisation of a sweep-due row. -/
theorem sweepTargetFrom_eq_true (ids : List String) (cursor : Int) (r : Product) :
    sweepTargetFrom ids cursor r = true ↔
      (r.available = some AVAILABLE ∧
        (∃ h, r.hub_stock_id = some h ∧ ids.contains h = false) ∧ cursor < r.id) := by
  unfold sweepTargetFrom sweepTarget
  cases hh : r.hub_stock_id with
  | none => simp [hh]
  | some h =>
    by_cases hc : ids.contains h = true
    · have hm : h ∈ ids := by simpa using hc
      simp [hh, hm]
    · have hm : h ∉ ids := by simpa using hc
      simp [hh, hm]

/-- A marked row is never sweep-due again. -/
theorem sweepTargetFrom_markRow (ids : List String) (c : Int) (r : Product) :
    sweepTargetFrom ids c (markRow r) = false := by
  unfold sweepTargetFrom sweepTarget markRow
  simp [NOT_AVAILABLE, AVAILABLE]

/-- Characterisation of a row hit by the batch update. -/
theorem markedB_eq_true (missing : List String) (r : Product) :
    markedB missing r = true ↔ ∃ h, r.hub_stock_id = some h ∧ h ∈ missing := by
  unfold markedB
  cases hh : r.hub_stock_id <;> simp [hh]

/-- The batch update never changes internal ids. -/
theorem markMissingRows_map_id (store : List Product) (missing : List String) :
    (markMissingRows store missing).map (fun r => r.id) =
      store.map (fun r => r.id) := by
  rw [markMissingRows_eq_map, List.map_map]
  have hfe : ((fun r : Product => r.id) ∘
      (fun r => if markedB missing r then markRow r else r)) =
      (fun r : Product => r.id) := by
    funext r
    by_cases hm : markedB missing r = true <;> simp [hm, markRow]
  rw [hfe]

/-- The batch update never changes hub ids. -/
theorem markMissingRows_filterMap_hub (store : List Product) (missing : List String) :
    (markMissingRows store missing).filterMap (fun r => r.hub_stock_id) =
      store.filterMap (fun r => r.hub_stock_id) := by
  rw [markMissingRows_eq_map, List.filterMap_map]
  have hfe : ((fun r : Product => r.hub_stock_id) ∘
      (fun r => if markedB missing r then markRow r else r)) =
      (fun r : Product => r.hub_stock_id) := by
    funext r
    by_cases hm : markedB missing r = true <;> simp [hm, markRow]
  rw [hfe]

/-- Characterisation of a row the diff of availability considers due,
ignoring the cursor. -/
theorem sweepTarget_eq_true (ids : List String) (r : Product) :
    sweepTarget ids r = true ↔
      (r.available = some AVAILABLE ∧
        ∃ h, r.hub_stock_id = some h ∧ ids.contains h = false) := by
  unfold sweepTarget
  cases hh : r.hub_stock_id with
  | none => simp [hh]
  | some h =>
    by_cases hc : ids.contains h = true
    · have hm : h ∈ ids := by simpa using hc
      simp [hh, hm]
    · have hm : h ∉ ids := by simpa using hc
      simp [hh, hm]

/-- Inversion of the per-row missing entry. -/
theorem missingEntry_eq_some (ids : List String) (r : Product) (h : String) :
    missingEntry ids r = some h ↔
      (r.hub_stock_id = some h ∧ ids.contains h = false) := by
  unfold missingEntry
  cases hh : r.hub_stock_id with
  | none => simp [hh]
  | some h0 =>
    by_cases hc : ids.contains h0 = true
    · have hm : h0 ∈ ids := by simpa using hc
      simp [hh, hm]
      intro heq
      rw [← heq]
      simpa using hm
    · have hm : h0 ∉ ids := by simpa using hc
      simp [hh, hm]
      intro heq
      subst heq
      exact hm

/-- Characterisation of the missing flag. -/
theorem missingFlag_eq_true (ids : List String) (r : Product) :
    missingFlag ids r = true ↔
      ∃ h, r.hub_stock_id = some h ∧ ids.contains h = false := by
  unfold missingFlag
  rw [Option.isSome_iff_exists]
  constructor
  · rintro ⟨h, he⟩
    exact ⟨h, (missingEntry_eq_some ids r h).mp he⟩
  · rintro ⟨h, hh, hc⟩
    exact ⟨h, (missingEntry_eq_some ids r h).mpr ⟨hh, hc⟩⟩


/-- The sweep's cursor loop marks exactly the due rows beyond the cursor
and counts them, when internal ids and hub ids are duplicate-free and the
fuel dominates the number of available rows beyond the cursor. -/
theorem sweepLoop_correct (ids : List String) :
    ∀ (fuel : Nat) (store : List Product) (cursor : Int) (count : Nat),
      (store.map (fun r => r.id)).Nodup →
      (store.filterMap (fun r => r.hub_stock_id)).Nodup →
      store.countP
        (fun r => decide (cursor < r.id ∧ r.available = some AVAILABLE)) < fuel →
      sweepLoop ids fuel store cursor count =
        (store.map (fun r => if sweepTargetFrom ids cursor r then markRow r else r),
         count + store.countP (sweepTargetFrom ids cursor)) := by
  intro fuel
  induction fuel with
  | zero =>
    intro store cursor count _ _ hm
    omega
  | succ f ih =>
    intro store cursor count hid hhub hm
    by_cases hpe : (scanPage store cursor).isEmpty = true
    · -- empty page: no row is in range, the loop stops and nothing is due
      have hfil : store.filter
          (fun r => decide (cursor < r.id ∧ r.available = some AVAILABLE)) = [] :=
        (scanPage_eq_nil_iff store cursor).mp (List.isEmpty_iff.mp hpe)
      have hnor := List.filter_eq_nil_iff.mp hfil
      have htf : ∀ r ∈ store, sweepTargetFrom ids cursor r = false := by
        intro r hr
        have hno := hnor r hr
        rw [decide_eq_true_eq] at hno
        by_cases hT : sweepTargetFrom ids cursor r = true
        · obtain ⟨ha, _, hlt⟩ := (sweepTargetFrom_eq_true ids cursor r).mp hT
          exact absurd ⟨hlt, ha⟩ hno
        · revert hT; cases sweepTargetFrom ids cursor r <;> simp
      have hloop : sweepLoop ids (f + 1) store cursor count = (store, count) := by
        rw [sweepLoop]
        simp only [hpe, if_true]
      rw [hloop]
      have hmapid : store.map
          (fun r => if sweepTargetFrom ids cursor r then markRow r else r) = store := by
        have hcg : ∀ r ∈ store,
            (if sweepTargetFrom ids cursor r then markRow r else r) = r := by
          intro r hr
          rw [htf r hr]
          simp
        rw [List.map_congr_left hcg]
        simp
      have hcnt : store.countP (sweepTargetFrom ids cursor) = 0 :=
        List.countP_eq_zero.mpr (fun r hr => by rw [htf r hr]; simp)
      rw [hmapid, hcnt]
      simp
    · -- non-empty page
      have hpe' : (scanPage store cursor).isEmpty = false := by
        revert hpe; cases (scanPage store cursor).isEmpty <;> simp
      have hpne : scanPage store cursor ≠ [] := by
        intro h
        rw [h] at hpe'
        cases hpe'
      haveI : IsTotal Product (fun a b : Product => a.id ≤ b.id) :=
        ⟨fun a b => le_total a.id b.id⟩
      haveI : IsTrans Product (fun a b : Product => a.id ≤ b.id) :=
        ⟨fun a b c hab hbc => le_trans hab hbc⟩
      set F := store.filter
        (fun r => decide (cursor < r.id ∧ r.available = some AVAILABLE)) with hFdef
      set S := F.insertionSort (fun a b : Product => a.id ≤ b.id) with hSdef
      have hpage : scanPage store cursor = S.take CHUNK_SIZE := by
        rw [hSdef, hFdef]
        rfl
      set page := S.take CHUNK_SIZE with hpagedef
      set rest := S.drop CHUNK_SIZE with hrestdef
      rw [hpage] at hpne hpe'
      set missing := pageMissing ids page with hmissdef
      -- basic structure facts
      have hSperm : S.Perm F := List.perm_insertionSort _ _
      have hSsorted : List.Pairwise (fun a b : Product => a.id ≤ b.id) S :=
        List.sorted_insertionSort _ _
      have hSsplit : page ++ rest = S := List.take_append_drop _ _
      have hpagemem : ∀ r ∈ page, r ∈ F := by
        intro r hr
        exact hSperm.mem_iff.mp (List.mem_of_mem_take hr)
      have hrestmem : ∀ r ∈ rest, r ∈ F := by
        intro r hr
        exact hSperm.mem_iff.mp (List.mem_of_mem_drop hr)
      have hFP : ∀ r ∈ F, (cursor < r.id ∧ r.available = some AVAILABLE) ∧ r ∈ store := by
        intro r hr
        have := List.mem_filter.mp hr
        exact ⟨by simpa using this.2, this.1⟩
      have hmemF : ∀ r ∈ store, cursor < r.id → r.available = some AVAILABLE → r ∈ S := by
        intro r hr h1 h2
        exact hSperm.mem_iff.mpr (List.mem_filter.mpr ⟨hr, by simp [h1, h2]⟩)
      -- the last row of the page
      have hlastmem : page.getLast hpne ∈ page := List.getLast_mem hpne
      have hlastF := hpagemem _ hlastmem
      have hlastP := (hFP _ hlastF).1
      have hlastval : ((page.getLast?.map (fun r => r.id)).getD cursor) =
          (page.getLast hpne).id := by
        rw [List.getLast?_eq_getLast page hpne]
        rfl
      have hpairs : List.Pairwise (fun a b : Product => a.id ≤ b.id) (page ++ rest) := by
        rw [hSsplit]; exact hSsorted
      have hpage_sorted : List.Pairwise (fun a b : Product => a.id ≤ b.id) page :=
        (List.pairwise_append.mp hpairs).1
      have hpage_le : ∀ r ∈ page, r.id ≤ (page.getLast hpne).id :=
        fun r hr => sorted_id_le_getLast page hpage_sorted hpne r hr
      have hacross : ∀ a ∈ page, ∀ b ∈ rest, a.id ≤ b.id :=
        (List.pairwise_append.mp hpairs).2.2
      -- id nodups along the sorted list
      have hFid : (F.map (fun r => r.id)).Nodup :=
        List.Nodup.sublist (List.Sublist.map _ (List.filter_sublist store)) hid
      have hSid : (S.map (fun r => r.id)).Nodup :=
        (List.Perm.nodup_iff (List.Perm.map _ hSperm)).mpr hFid
      have hsplitid : ((page.map (fun r => r.id)) ++ (rest.map (fun r => r.id))).Nodup := by
        rw [← List.map_append, hSsplit]
        exact hSid
      have hdisj := (List.nodup_append.mp hsplitid).2.2
      have hrest_gt : ∀ b ∈ rest, (page.getLast hpne).id < b.id := by
        intro b hb
        have hle := hacross _ hlastmem b hb
        rcases lt_or_eq_of_le hle with hlt | heq
        · exact hlt
        · exfalso
          exact hdisj (List.mem_map_of_mem _ hlastmem) (heq ▸ List.mem_map_of_mem _ hb)
      have hnotboth : ∀ r, r ∈ page → r ∈ rest → False := by
        intro r h1 h2
        exact hdisj (List.mem_map_of_mem _ h1) (List.mem_map_of_mem _ h2)
      -- membership of missing ids
      have hmiss_src : ∀ h ∈ missing, ∃ q ∈ page, q.hub_stock_id = some h ∧
          ids.contains h = false := by
        intro h hh
        exact (mem_pageMissing ids page h).mp hh
      -- marked rows are exactly the due page rows
      have hmarked_page : ∀ r ∈ store, markedB missing r = true →
          r ∈ page ∧ sweepTargetFrom ids cursor r = true := by
        intro r hr hmk
        obtain ⟨h, hhub', hhm⟩ := (markedB_eq_true missing r).mp hmk
        obtain ⟨q, hq, hqh, hqc⟩ := hmiss_src h hhm
        have hqstore := (hFP q (hpagemem q hq)).2
        have hrq : r = q := hub_nodup_inj hhub hr hqstore hhub' hqh
        subst hrq
        have hPq := (hFP r (hpagemem r hq)).1
        exact ⟨hq, (sweepTargetFrom_eq_true ids cursor r).mpr
          ⟨hPq.2, ⟨h, hhub', hqc⟩, hPq.1⟩⟩
      have hpage_marked : ∀ r ∈ page, sweepTargetFrom ids cursor r = true →
          markedB missing r = true := by
        intro r hr hT
        obtain ⟨ha, ⟨h, hhub', hc⟩, hlt⟩ := (sweepTargetFrom_eq_true ids cursor r).mp hT
        exact (markedB_eq_true missing r).mpr
          ⟨h, hhub', (mem_pageMissing ids page h).mpr ⟨r, hr, hhub', hc⟩⟩
      have hnot_marked : ∀ r ∈ store, r ∉ page → markedB missing r = false := by
        intro r hr hnp
        by_cases hmk : markedB missing r = true
        · exact absurd (hmarked_page r hr hmk).1 hnp
        · revert hmk; cases markedB missing r <;> simp
      -- step the loop once
      have hstep := sweepLoop_succ ids f store cursor count (by rw [hpage]; exact hpe')
      rw [hpage, hlastval] at hstep
      rw [hstep]
      -- names for this iteration's data
      have hstore' : markMissingRows store missing =
          store.map (fun r => if markedB missing r then markRow r else r) :=
        markMissingRows_eq_map store missing
      -- nodup preservation
      have hid' : ((markMissingRows store missing).map (fun r => r.id)).Nodup := by
        rw [markMissingRows_map_id]; exact hid
      have hhub' : ((markMissingRows store missing).filterMap
          (fun r => r.hub_stock_id)).Nodup := by
        rw [markMissingRows_filterMap_hub]; exact hhub
      -- the measure strictly decreases
      have himpl : ∀ r ∈ store,
          (fun r : Product => decide ((page.getLast hpne).id < r.id ∧
            r.available = some AVAILABLE)) r = true →
          (fun r : Product => decide (cursor < r.id ∧
            r.available = some AVAILABLE)) r = true := by
        intro r _ hr
        rw [decide_eq_true_eq] at hr ⊢
        exact ⟨lt_trans hlastP.1 hr.1, hr.2⟩
      have hlastPfalse : (fun r : Product => decide ((page.getLast hpne).id < r.id ∧
          r.available = some AVAILABLE)) (page.getLast hpne) = false := by
        rw [decide_eq_false_iff_not]
        intro hcon
        exact absurd hcon.1 (lt_irrefl _)
      have hmeas0 : store.countP (fun r => decide ((page.getLast hpne).id < r.id ∧
          r.available = some AVAILABLE)) <
          store.countP (fun r => decide (cursor < r.id ∧
            r.available = some AVAILABLE)) :=
        countP_lt_of_witness _ _ store himpl (page.getLast hpne)
          (hFP _ hlastF).2 (by rw [decide_eq_true_eq]; exact hlastP) hlastPfalse
      have hmeas : (markMissingRows store missing).countP
          (fun r => decide ((page.getLast hpne).id < r.id ∧
            r.available = some AVAILABLE)) < f := by
        rw [hstore', List.countP_map]
        have hmono : store.countP ((fun r : Product => decide ((page.getLast hpne).id < r.id ∧
            r.available = some AVAILABLE)) ∘
            (fun r => if markedB missing r then markRow r else r)) ≤
            store.countP (fun r : Product => decide ((page.getLast hpne).id < r.id ∧
              r.available = some AVAILABLE)) := by
          apply List.countP_mono_left
          intro r _ hr
          by_cases hmk : markedB missing r = true
          · exfalso
            simp only [Function.comp, hmk, if_true] at hr
            rw [decide_eq_true_eq] at hr
            have : (markRow r).available = some NOT_AVAILABLE := rfl
            rw [this] at hr
            have := hr.2
            simp [NOT_AVAILABLE, AVAILABLE] at this
          · have hmkf : markedB missing r = false := by
              revert hmk; cases markedB missing r <;> simp
            simpa [Function.comp, hmkf] using hr
        omega

      rw [← hmissdef]
      rw [ih (markMissingRows store missing) (page.getLast hpne).id
        (count + missing.length) hid' hhub' hmeas]
      -- the two target predicates agree on unmarked rows
      have hTT' : ∀ r ∈ store, markedB missing r = false →
          sweepTargetFrom ids (page.getLast hpne).id r =
            sweepTargetFrom ids cursor r := by
        intro r hr hmkf
        by_cases hs : sweepTarget ids r = true
        · obtain ⟨ha, hex⟩ := (sweepTarget_eq_true ids r).mp hs
          show (sweepTarget ids r && decide ((page.getLast hpne).id < r.id)) =
            (sweepTarget ids r && decide (cursor < r.id))
          rw [hs]
          simp only [Bool.true_and]
          by_cases hcur : cursor < r.id
          · have hrS : r ∈ S := hmemF r hr hcur ha
            have hrPR : r ∈ page ++ rest := by rw [hSsplit]; exact hrS
            rcases List.mem_append.mp hrPR with hp | hrr
            · exfalso
              have hT : sweepTargetFrom ids cursor r = true :=
                (sweepTargetFrom_eq_true ids cursor r).mpr ⟨ha, hex, hcur⟩
              have hcontr := hpage_marked r hp hT
              rw [hmkf] at hcontr
              cases hcontr
            · have hgt := hrest_gt r hrr
              rw [decide_eq_true hgt, decide_eq_true hcur]
          · have hnlast : ¬((page.getLast hpne).id < r.id) := by
              intro hcon
              exact hcur (lt_trans hlastP.1 hcon)
            rw [decide_eq_false hnlast, decide_eq_false hcur]
        · have hsf : sweepTarget ids r = false := by
            revert hs; cases sweepTarget ids r <;> simp
          show (sweepTarget ids r && decide ((page.getLast hpne).id < r.id)) =
            (sweepTarget ids r && decide (cursor < r.id))
          rw [hsf]
          simp
      -- map component
      have hmapeq : (markMissingRows store missing).map
          (fun r => if sweepTargetFrom ids (page.getLast hpne).id r
            then markRow r else r) =
          store.map (fun r => if sweepTargetFrom ids cursor r then markRow r else r) := by
        rw [hstore', List.map_map]
        apply List.map_congr_left
        intro r hr
        simp only [Function.comp]
        by_cases hmk : markedB missing r = true
        · rw [if_pos hmk, sweepTargetFrom_markRow, (hmarked_page r hr hmk).2]
          simp
        · have hmkf : markedB missing r = false := by
            revert hmk; cases markedB missing r <;> simp
          rw [if_neg hmk, hTT' r hr hmkf]
      -- count component
      have hTP : ∀ r ∈ store, sweepTargetFrom ids cursor r = true ↔
          (sweepTargetFrom ids cursor r &&
            decide (cursor < r.id ∧ r.available = some AVAILABLE)) = true := by
        intro r _
        constructor
        · intro hT
          obtain ⟨ha, _, hlt⟩ := (sweepTargetFrom_eq_true ids cursor r).mp hT
          rw [hT]
          simp [ha, hlt]
        · intro hT
          exact (Bool.and_eq_true_iff.mp hT).1
      have c0 : store.countP (sweepTargetFrom ids cursor) =
          F.countP (sweepTargetFrom ids cursor) := by
        rw [hFdef, List.countP_filter]
        exact List.countP_congr hTP
      have c12 : F.countP (sweepTargetFrom ids cursor) =
          page.countP (sweepTargetFrom ids cursor) +
            rest.countP (sweepTargetFrom ids cursor) := by
        rw [← (hSperm.countP_eq _), ← hSsplit, List.countP_append]
      have c3 : page.countP (sweepTargetFrom ids cursor) = missing.length := by
        rw [hmissdef, pageMissing_length]
        apply List.countP_congr
        intro r hr
        have hPr := (hFP r (hpagemem r hr)).1
        constructor
        · intro hT
          obtain ⟨_, ⟨h, hh, hc⟩, _⟩ := (sweepTargetFrom_eq_true ids cursor r).mp hT
          exact (missingFlag_eq_true ids r).mpr ⟨h, hh, hc⟩
        · intro hmf
          obtain ⟨h, hh, hc⟩ := (missingFlag_eq_true ids r).mp hmf
          exact (sweepTargetFrom_eq_true ids cursor r).mpr ⟨hPr.2, ⟨h, hh, hc⟩, hPr.1⟩
      have c4 : (markMissingRows store missing).countP
          (sweepTargetFrom ids (page.getLast hpne).id) =
          rest.countP (sweepTargetFrom ids cursor) := by
        rw [hstore', List.countP_map]
        have e1 : store.countP ((sweepTargetFrom ids (page.getLast hpne).id) ∘
            (fun r => if markedB missing r then markRow r else r)) =
            store.countP (fun r => !(markedB missing r) &&
              sweepTargetFrom ids (page.getLast hpne).id r) := by
          apply List.countP_congr
          intro r _
          simp only [Function.comp]
          by_cases hmk : markedB missing r = true
          · rw [if_pos hmk, sweepTargetFrom_markRow, hmk]
            simp
          · have hmkf : markedB missing r = false := by
              revert hmk; cases markedB missing r <;> simp
            rw [if_neg hmk, hmkf]
            simp
        rw [e1]
        have himpP : ∀ r ∈ store, (!(markedB missing r) &&
            sweepTargetFrom ids (page.getLast hpne).id r) = true ↔
            ((!(markedB missing r) && sweepTargetFrom ids (page.getLast hpne).id r) &&
              decide (cursor < r.id ∧ r.available = some AVAILABLE)) = true := by
          intro r _
          constructor
          · intro hb
            obtain ⟨hnm, hT2⟩ := Bool.and_eq_true_iff.mp hb
            obtain ⟨ha, _, hlt⟩ := (sweepTargetFrom_eq_true _ _ r).mp hT2
            rw [hb]
            have hcc : cursor < r.id := lt_trans hlastP.1 hlt
            simp [ha, hcc]
          · intro hb
            exact (Bool.and_eq_true_iff.mp hb).1
        have e2 : store.countP (fun r => !(markedB missing r) &&
            sweepTargetFrom ids (page.getLast hpne).id r) =
            F.countP (fun r => !(markedB missing r) &&
              sweepTargetFrom ids (page.getLast hpne).id r) := by
          rw [hFdef, List.countP_filter]
          exact List.countP_congr himpP
        rw [e2]
        have e3 : F.countP (fun r => !(markedB missing r) &&
            sweepTargetFrom ids (page.getLast hpne).id r) =
            page.countP (fun r => !(markedB missing r) &&
              sweepTargetFrom ids (page.getLast hpne).id r) +
            rest.countP (fun r => !(markedB missing r) &&
              sweepTargetFrom ids (page.getLast hpne).id r) := by
          rw [← (hSperm.countP_eq _), ← hSsplit, List.countP_append]
        rw [e3]
        have e4 : page.countP (fun r => !(markedB missing r) &&
            sweepTargetFrom ids (page.getLast hpne).id r) = 0 := by
          apply List.countP_eq_zero.mpr
          intro r hr
          have hle := hpage_le r hr
          intro hb
          obtain ⟨_, hT2⟩ := Bool.and_eq_true_iff.mp hb
          obtain ⟨_, _, hlt⟩ := (sweepTargetFrom_eq_true _ _ r).mp hT2
          exact absurd hlt (not_lt_of_le hle)
        rw [e4]
        have e5 : rest.countP (fun r => !(markedB missing r) &&
            sweepTargetFrom ids (page.getLast hpne).id r) =
            rest.countP (sweepTargetFrom ids cursor) := by
          apply List.countP_congr
          intro r hr
          have hrstore := (hFP r (hrestmem r hr)).2
          have hnp : r ∉ page := fun hp => hnotboth r hp hr
          have hmkf := hnot_marked r hrstore hnp
          rw [hmkf]
          simp only [Bool.not_false, Bool.true_and]
          rw [hTT' r hrstore hmkf]
        rw [e5]
        omega
      rw [Prod.mk.injEq]
      constructor
      · exact hmapeq
      · have : missing.length + rest.countP (sweepTargetFrom ids cursor) =
            store.countP (sweepTargetFrom ids cursor) := by
          omega
        omega


/-- C6: over a catalog whose internal ids and hub ids are duplicate-free
(the store's key invariants) and whose internal ids are positive, the
missing sweep marks not-available exactly the currently-available rows
whose hub id is outside the observed set, touches no other row, and
returns the number of rows it marked. -/
theorem C6_missing_sweep (store : List Product) (ids : List String)
    (hid : (store.map (fun r => r.id)).Nodup)
    (hhub : (store.filterMap (fun r => r.hub_stock_id)).Nodup)
    (hpos : ∀ r ∈ store, 0 < r.id) :
    mark_missing_as_unavailable store ids =
      (store.map (fun r => if sweepTarget ids r then markRow r else r),
       store.countP (sweepTarget ids)) := by
  unfold mark_missing_as_unavailable
  have hfuel : store.countP
      (fun r => decide ((0 : Int) < r.id ∧ r.available = some AVAILABLE)) <
      store.length + 1 :=
    lt_of_le_of_lt (List.countP_le_length _) (Nat.lt_succ_self _)
  rw [sweepLoop_correct ids (store.length + 1) store 0 0 hid hhub hfuel]
  have hcg : ∀ r ∈ store, sweepTargetFrom ids 0 r = sweepTarget ids r := by
    intro r hr
    show (sweepTarget ids r && decide ((0 : Int) < r.id)) = sweepTarget ids r
    rw [decide_eq_true (hpos r hr)]
    simp
  rw [Prod.mk.injEq]
  constructor
  · apply List.map_congr_left
    intro r hr
    rw [hcg r hr]
  · rw [List.countP_congr (fun r hr => by rw [hcg r hr])]
    omega

/-- C6 witness: observed ids {A, B} over available rows A, B, C and
not-available row D — exactly row C is marked, count 1. -/
theorem C6_missing_sweep_witness :
    ((c6Store.map (fun r => r.id)).Nodup ∧
      (c6Store.filterMap (fun r => r.hub_stock_id)).Nodup ∧
      (∀ r ∈ c6Store, 0 < r.id)) ∧
    mark_missing_as_unavailable c6Store ["A", "B"] =
      (c6Store.map (fun r => if sweepTarget ["A", "B"] r then markRow r else r),
       c6Store.countP (sweepTarget ["A", "B"])) ∧
    c6Store.countP (sweepTarget ["A", "B"]) = 1 ∧
    (c6Store.map (fun r => if sweepTarget ["A", "B"] r then markRow r else r)).map
      (fun r => r.available) = [some 1, some 1, some 0, some 0] :=
  ⟨⟨by decide, by decide, by decide⟩,
   C6_missing_sweep c6Store ["A", "B"] (by decide) (by decide) (by decide),
   by decide, by decide⟩

/-- From a `getLast?` result to membership. -/
theorem mem_of_getLast?_eq_some {l : List Product} {x : Product}
    (h : l.getLast? = some x) : x ∈ l := by
  obtain ⟨hne, hx⟩ :=
    List.mem_getLast?_eq_getLast (l := l) (x := x) (Option.mem_def.mpr h)
  rw [hx]
  exact List.getLast_mem hne

/-- A raw update statement never changes a row's internal id. -/
theorem applyUpdateQuery_id (u : UpdateQuery) (r : Product) :
    (applyUpdateQuery u r).id = r.id := by
  unfold applyUpdateQuery
  split <;> rfl

/-- A raw update statement never changes a row's hub id. -/
theorem applyUpdateQuery_hub (u : UpdateQuery) (r : Product) :
    (applyUpdateQuery u r).hub_stock_id = r.hub_stock_id := by
  unfold applyUpdateQuery
  split <;> rfl

/-- A batch of update statements never changes a row's internal id. -/
theorem applyAll_id (us : List UpdateQuery) (r : Product) :
    (applyAll us r).id = r.id := by
  induction us generalizing r with
  | nil => rfl
  | cons u rest ih =>
    unfold applyAll
    rw [List.foldl_cons]
    rw [show List.foldl (fun x u => applyUpdateQuery u x) (applyUpdateQuery u r) rest =
      applyAll rest (applyUpdateQuery u r) from rfl]
    rw [ih (applyUpdateQuery u r), applyUpdateQuery_id]

/-- A batch of update statements never changes a row's hub id. -/
theorem applyAll_hub (us : List UpdateQuery) (r : Product) :
    (applyAll us r).hub_stock_id = r.hub_stock_id := by
  induction us generalizing r with
  | nil => rfl
  | cons u rest ih =>
    unfold applyAll
    rw [List.foldl_cons]
    rw [show List.foldl (fun x u => applyUpdateQuery u x) (applyUpdateQuery u r) rest =
      applyAll rest (applyUpdateQuery u r) from rfl]
    rw [ih (applyUpdateQuery u r), applyUpdateQuery_hub]

/-- Statements that do not target a row leave it untouched. -/
theorem applyAll_not_target (us : List UpdateQuery) (r : Product)
    (h : ∀ u ∈ us, u.product_id ≠ r.id) : applyAll us r = r := by
  induction us with
  | nil => rfl
  | cons u rest ih =>
    unfold applyAll
    rw [List.foldl_cons]
    have hu : applyUpdateQuery u r = r := by
      unfold applyUpdateQuery
      rw [if_neg]
      intro hc
      exact h u (List.mem_cons_self u rest) (by rw [← hc])
    rw [hu]
    exact ih (fun v hv => h v (List.mem_cons_of_mem u hv))

/-- Batch application splits over append. -/
theorem applyAll_append (a b : List UpdateQuery) (r : Product) :
    applyAll (a ++ b) r = applyAll b (applyAll a r) := by
  unfold applyAll
  rw [List.foldl_append]

/-- The raw batch execution is a pointwise map of the composed statements. -/
theorem applyUpdates_eq_map (store : List Product) (us : List UpdateQuery) :
    applyUpdates store us = store.map (applyAll us) := by
  induction us generalizing store with
  | nil =>
    unfold applyUpdates applyAll
    simp
  | cons u rest ih =>
    unfold applyUpdates
    rw [List.foldl_cons]
    rw [show List.foldl (fun s u => s.map (applyUpdateQuery u))
      (store.map (applyUpdateQuery u)) rest =
      applyUpdates (store.map (applyUpdateQuery u)) rest from rfl]
    rw [ih, List.map_map]
    congr 1

/-- Hub ids of physically inserted rows come from the inserted candidates. -/
theorem insertRows_hub :
    ∀ (l : List NewProduct) (i : Int) (r : Product), r ∈ insertRows i l →
      ∃ q ∈ l, r.hub_stock_id = some q.hub_stock_id := by
  intro l
  induction l with
  | nil => intro i r hr; cases hr
  | cons q rest ih =>
    intro i r hr
    rw [insertRows] at hr
    rcases List.mem_cons.mp hr with rfl | hr'
    · exact ⟨q, List.mem_cons_self q rest, rfl⟩
    · obtain ⟨q', hq', hh⟩ := ih (i + 1) r hr'
      exact ⟨q', List.mem_cons_of_mem q hq', hh⟩

/-- Ids of physically inserted rows lie in the assigned range. -/
theorem insertRows_id_bounds :
    ∀ (l : List NewProduct) (i : Int) (r : Product), r ∈ insertRows i l →
      i ≤ r.id ∧ r.id < i + l.length := by
  intro l
  induction l with
  | nil => intro i r hr; cases hr
  | cons q rest ih =>
    intro i r hr
    rw [insertRows] at hr
    rcases List.mem_cons.mp hr with rfl | hr'
    · constructor
      · exact le_refl _
      · have : (0 : Int) < 1 + rest.length := by positivity
        simp only [newProductRow, List.length_cons]
        push_cast
        omega
    · obtain ⟨h1, h2⟩ := ih (i + 1) r hr'
      constructor
      · omega
      · simp only [List.length_cons]
        push_cast at h2 ⊢
        omega

/-- Ids of physically inserted rows are pairwise distinct. -/
theorem insertRows_id_nodup :
    ∀ (l : List NewProduct) (i : Int),
      ((insertRows i l).map (fun r => r.id)).Nodup := by
  intro l
  induction l with
  | nil => intro i; simp [insertRows]
  | cons q rest ih =>
    intro i
    rw [insertRows, List.map_cons, List.nodup_cons]
    refine ⟨?_, ih (i + 1)⟩
    intro hmem
    obtain ⟨r, hr, hid⟩ := List.mem_map.mp hmem
    have := (insertRows_id_bounds rest (i + 1) r hr).1
    rw [hid] at this
    have : (newProductRow i q).id = i := rfl
    omega

/-- A converted candidate always carries its offer id as hub id. -/
theorem convert_hub_eq (o : Offer) (p : NewProduct)
    (h : convert_offer_to_product o = some p) :
    p.hub_stock_id = p.offer_id ∧ p.available = o.available ∧
      p.price = (o.price.getD 0) := by
  unfold convert_offer_to_product at h
  cases hn : o.name with
  | none => rw [hn] at h; cases h
  | some name =>
    rw [hn] at h
    cases hc : o.category_id with
    | none => rw [hc] at h; cases h
    | some cat =>
      rw [hc] at h
      cases hp : o.price with
      | none => rw [hp] at h; cases h
      | some pr =>
        rw [hp] at h
        cases h
        exact ⟨rfl, rfl, rfl⟩

/-- Looking a chunk id up in the bulk-lookup result is the same as looking
it up in the whole store. -/
theorem findMatch_filter_eq (store : List Product) (idsl : List String)
    (h : String) (hmem : h ∈ idsl) :
    findMatch (store.filter (hubMatches idsl)) h = globalMatch store h := by
  unfold findMatch globalMatch
  rw [List.filter_filter]
  congr 1
  apply List.filter_congr
  intro r _
  by_cases hh : r.hub_stock_id = some h
  · have hmatch : hubMatches idsl r = true := by
      unfold hubMatches
      rw [hh]
      simpa using hmem
    simp [hh, hmatch]
  · simp [hh]

/-- Mapping a hub-preserving function commutes with the hub filter. -/
theorem filter_hub_map (store : List Product) (g : Product → Product)
    (hg : ∀ r, (g r).hub_stock_id = r.hub_stock_id) (h : String) :
    (store.map g).filter (fun r => r.hub_stock_id = some h) =
      (store.filter (fun r => r.hub_stock_id = some h)).map g := by
  rw [List.filter_map]
  congr 1
  apply List.filter_congr
  intro r _
  simp [Function.comp, hg r]

/-- `globalMatch` after a hub-preserving map. -/
theorem globalMatch_map (store : List Product) (g : Product → Product)
    (hg : ∀ r, (g r).hub_stock_id = r.hub_stock_id) (h : String) :
    globalMatch (store.map g) h = (globalMatch store h).map g := by
  unfold globalMatch
  rw [filter_hub_map store g hg, List.getLast?_map]

/-- `globalMatch` over an append whose right part has no matching hub. -/
theorem globalMatch_append_right_nil (l1 l2 : List Product) (h : String)
    (hno : ∀ r ∈ l2, r.hub_stock_id ≠ some h) :
    globalMatch (l1 ++ l2) h = globalMatch l1 h := by
  unfold globalMatch
  rw [List.filter_append]
  have : l2.filter (fun r => r.hub_stock_id = some h) = [] := by
    apply List.filter_eq_nil_iff.mpr
    intro r hr
    simp [hno r hr]
  rw [this, List.append_nil]

/-- A matched row carries the looked-up hub id and lives in the store. -/
theorem globalMatch_spec (store : List Product) (h : String) (r : Product)
    (hm : globalMatch store h = some r) :
    r ∈ store ∧ r.hub_stock_id = some h := by
  have hmem := mem_of_getLast?_eq_some hm
  have := List.mem_filter.mp hmem
  refine ⟨this.1, by simpa using this.2⟩

/-- Recording an offer only appends the converted candidate, and inserts
its id into the observed set when the sweep flag is on. -/
theorem recordOffer_products (opts : Opts) (st : ParseState) (o : Offer) :
    (∀ s ∈ st.all_offer_ids, s ∈ (recordOffer opts st o).all_offer_ids) ∧
    (∀ p ∈ (recordOffer opts st o).chunks.flatten ++ (recordOffer opts st o).bucket,
      p ∈ st.chunks.flatten ++ st.bucket ∨ convert_offer_to_product o = some p) ∧
    (∀ p : NewProduct, convert_offer_to_product o = some p →
      opts.mark_missing_unavailable = true →
      p.offer_id ∈ (recordOffer opts st o).all_offer_ids) := by
  unfold recordOffer
  cases hc : convert_offer_to_product o with
  | none =>
    simp only [hc]
    split
    · refine ⟨fun s hs => hs, ?_, ?_⟩
      · intro p hp
        left
        rw [List.flatten_append, List.flatten_cons, List.flatten_nil] at hp
        simp only [List.append_nil] at hp
        rcases List.mem_append.mp hp with h1 | h2
        · exact List.mem_append.mpr (Or.inl h1)
        · exact List.mem_append.mpr (Or.inr h2)
      · intro p hp
        cases hp
    · refine ⟨fun s hs => hs, fun p hp => Or.inl hp, ?_⟩
      intro p hp
      cases hp
  | some prod =>
    simp only [hc]
    have hins : ∀ s ∈ st.all_offer_ids,
        s ∈ (if opts.mark_missing_unavailable = true then
          hashInsert st.all_offer_ids prod.offer_id else st.all_offer_ids) := by
      intro s hs
      split
      · unfold hashInsert
        split
        · exact hs
        · exact List.mem_append.mpr (Or.inl hs)
      · exact hs
    have hprodmem : opts.mark_missing_unavailable = true →
        prod.offer_id ∈ (if opts.mark_missing_unavailable = true then
          hashInsert st.all_offer_ids prod.offer_id else st.all_offer_ids) := by
      intro hm
      rw [if_pos hm]
      unfold hashInsert
      split
      · assumption
      · exact List.mem_append.mpr (Or.inr (List.mem_singleton_self _))
    split
    · refine ⟨hins, ?_, ?_⟩
      · intro p hp
        rw [List.flatten_append, List.flatten_cons, List.flatten_nil] at hp
        simp only [List.append_nil] at hp
        rcases List.mem_append.mp hp with h1 | h2
        · exact Or.inl (List.mem_append.mpr (Or.inl h1))
        · rcases List.mem_append.mp h2 with h3 | h4
          · exact Or.inl (List.mem_append.mpr (Or.inr h3))
          · right
            rw [List.mem_singleton.mp h4]
      · intro p hp hm
        cases hp
        exact hprodmem hm
    · refine ⟨hins, ?_, ?_⟩
      · intro p hp
        rcases List.mem_append.mp hp with h1 | h2
        · exact Or.inl (List.mem_append.mpr (Or.inl h1))
        · rcases List.mem_append.mp h2 with h3 | h4
          · exact Or.inl (List.mem_append.mpr (Or.inr h3))
          · right
            rw [List.mem_singleton.mp h4]
      · intro p hp hm
        cases hp
        exact hprodmem hm

/-- The store after one chunk sync: batched updates applied to the whole
table, then the gated inserts appended. -/
theorem sync_store_spec (store : List Product) (chunk : List NewProduct)
    (opts : Opts) (date : Nat) (nid : Int) :
    (sync_products_chunk store chunk opts date nid).1.store =
      applyUpdates store
        (chunk.flatMap (fun p =>
          match findMatch (store.filter (hubMatches (chunk.map (fun q => q.offer_id))))
              p.hub_stock_id with
          | some r =>
            (match (syncMatched opts p r).2 with
             | some md => [⟨r.id, md, date⟩]
             | none => [])
          | none => [])) ++
      (if opts.insert_new then
        insertRows nid (chunk.filter (fun p =>
          (findMatch (store.filter (hubMatches (chunk.map (fun q => q.offer_id))))
            p.hub_stock_id).isNone))
       else []) := by
  simp only [sync_products_chunk]
  rw [sync_loop_spec]
  simp only [List.nil_append]

/-- The auto-increment cursor after one chunk sync. -/
theorem sync_nextId_spec (store : List Product) (chunk : List NewProduct)
    (opts : Opts) (date : Nat) (nid : Int) :
    (sync_products_chunk store chunk opts date nid).2 =
      nid + (if opts.insert_new then
        ((chunk.filter (fun p =>
          (findMatch (store.filter (hubMatches (chunk.map (fun q => q.offer_id))))
            p.hub_stock_id).isNone)).length : Int)
       else 0) := rfl

/-- Under all-write-enabled flags, the per-candidate outcome — the matched
row updated by its own statement, or untouched when nothing differs —
always agrees with the candidate and keeps id and hub id. -/
theorem syncMatched_allOn_result (m : Bool) (p : NewProduct) (r : Product)
    (date : Nat) :
    agrees p (match (syncMatched (allOn m) p r).2 with
      | some md => applyUpdateQuery ⟨r.id, md, date⟩ r
      | none => r) ∧
    (match (syncMatched (allOn m) p r).2 with
      | some md => applyUpdateQuery ⟨r.id, md, date⟩ r
      | none => r).id = r.id ∧
    (match (syncMatched (allOn m) p r).2 with
      | some md => applyUpdateQuery ⟨r.id, md, date⟩ r
      | none => r).hub_stock_id = r.hub_stock_id := by
  by_cases ha : some p.available ≠ r.available <;>
    by_cases hq : (p.price ≠ r.price ∨ p.oldprice ≠ r.oldprice ∨
      p.currencyId ≠ r.currencyId) <;>
    simp only [syncMatched, allOn, emptyMod, ha, hq, decide_True, decide_False,
      Bool.true_and, Bool.and_true, Bool.false_and, Bool.and_false, Bool.true_or,
      Bool.or_true, Bool.false_or, Bool.or_false, if_true, if_false,
      decide_eq_true_eq, agrees, applyUpdateQuery]
  · simp [agrees, applyUpdateQuery, ha, hq]
  · push_neg at hq
    simp [agrees, applyUpdateQuery, ha, hq.1, hq.2.1, hq.2.2]
  · push_neg at ha
    simp [agrees, applyUpdateQuery, ha, hq]
  · push_neg at ha hq
    simp [agrees, ha, hq.1, hq.2.1, hq.2.2]

/-- Filtering the inserted rows for a hub id shared by none of them. -/
theorem insertRows_filter_nil (l : List NewProduct) (i : Int) (h : String)
    (hno : ∀ q ∈ l, q.hub_stock_id ≠ h) :
    (insertRows i l).filter (fun r => r.hub_stock_id = some h) = [] := by
  apply List.filter_eq_nil_iff.mpr
  intro r hr
  obtain ⟨q, hq, hh⟩ := insertRows_hub l i r hr
  simp only [decide_eq_true_eq]
  rw [hh]
  intro hc
  exact hno q hq (Option.some_inj.mp hc)

/-- Filtering the inserted rows for the hub id of a uniquely occurring
candidate yields exactly its row. -/
theorem insertRows_filter_single :
    ∀ (l : List NewProduct) (i : Int) (p : NewProduct),
      p ∈ l → (l.map (fun q => q.hub_stock_id)).Nodup →
      ∃ j : Int, (insertRows i l).filter
        (fun r => r.hub_stock_id = some p.hub_stock_id) = [newProductRow j p] := by
  intro l
  induction l with
  | nil => intro i p hp; cases hp
  | cons q rest ih =>
    intro i p hp hnd
    rw [insertRows, List.filter_cons]
    rw [List.map_cons, List.nodup_cons] at hnd
    rcases List.mem_cons.mp hp with rfl | hpr
    · have hhead : (newProductRow i p).hub_stock_id = some p.hub_stock_id := rfl
      have hrest : (insertRows (i + 1) rest).filter
          (fun r => r.hub_stock_id = some p.hub_stock_id) = [] := by
        apply insertRows_filter_nil
        intro q' hq' hc
        exact hnd.1 (hc ▸ List.mem_map_of_mem _ hq')
      rw [if_pos (by simp [hhead]), hrest]
      exact ⟨i, rfl⟩
    · have hne : (newProductRow i q).hub_stock_id ≠ some p.hub_stock_id := by
        intro hc
        have : q.hub_stock_id = p.hub_stock_id :=
          Option.some_inj.mp (by simpa [newProductRow] using hc)
        exact hnd.1 (this ▸ List.mem_map_of_mem _ hpr)
      rw [if_neg (by simpa using hne)]
      exact ih (i + 1) p hpr hnd.2

/-- One all-writes-enabled chunk sync: every candidate ends up matched to an
agreeing row, other hub ids are untouched, and the id invariants persist. -/
theorem sync_chunk_allOn (m : Bool) (store : List Product) (chunk : List NewProduct)
    (date : Nat) (nid : Int)
    (hidn : (store.map (fun r => r.id)).Nodup)
    (hfresh : ∀ r ∈ store, r.id < nid)
    (hcn : (chunk.map (fun p => p.offer_id)).Nodup)
    (hhe : ∀ p ∈ chunk, p.hub_stock_id = p.offer_id) :
    (∀ p ∈ chunk, ∃ r,
      globalMatch (sync_products_chunk store chunk (allOn m) date nid).1.store
        p.offer_id = some r ∧ agrees p r) ∧
    (∀ h : String, h ∉ chunk.map (fun p => p.offer_id) →
      globalMatch (sync_products_chunk store chunk (allOn m) date nid).1.store h =
        globalMatch store h) ∧
    (((sync_products_chunk store chunk (allOn m) date nid).1.store.map
        (fun r => r.id)).Nodup) ∧
    (∀ r ∈ (sync_products_chunk store chunk (allOn m) date nid).1.store,
      r.id < (sync_products_chunk store chunk (allOn m) date nid).2) := by
  have hins : (allOn m).insert_new = true := rfl
  rw [sync_store_spec, sync_nextId_spec, if_pos hins, if_pos hins, applyUpdates_eq_map]
  set idsl := chunk.map (fun p => p.offer_id) with hidsdef
  set found := store.filter (hubMatches idsl) with hfounddef
  set fU := (fun p : NewProduct =>
      match findMatch found p.hub_stock_id with
      | some r =>
        (match (syncMatched (allOn m) p r).2 with
         | some md => [(⟨r.id, md, date⟩ : UpdateQuery)]
         | none => [])
      | none => ([] : List UpdateQuery)) with hfUdef
  set U := chunk.flatMap fU with hUdef
  set insertList := chunk.filter
    (fun p => (findMatch found p.hub_stock_id).isNone) with hILdef
  have hhub_g : ∀ r, (applyAll U r).hub_stock_id = r.hub_stock_id := applyAll_hub U
  -- membership characterisation of the update statements
  have hUgen : ∀ (l : List NewProduct), (∀ x ∈ l, x ∈ chunk) →
      ∀ u ∈ l.flatMap fU, ∃ q ∈ l, ∃ rq, globalMatch store q.offer_id = some rq ∧
        u.product_id = rq.id := by
    intro l hl u hu
    obtain ⟨q, hq, hu2⟩ := List.mem_flatMap.mp hu
    refine ⟨q, hq, ?_⟩
    have hqc := hl q hq
    rw [hfUdef] at hu2
    simp only at hu2
    rw [hfounddef, hhe q hqc,
      findMatch_filter_eq store idsl q.offer_id
        (by rw [hidsdef]; exact List.mem_map_of_mem _ hqc)] at hu2
    cases hgm : globalMatch store q.offer_id with
    | none => rw [hgm] at hu2; simp only at hu2; cases hu2
    | some rq =>
      rw [hgm] at hu2
      simp only at hu2
      refine ⟨rq, rfl, ?_⟩
      cases hsm : (syncMatched (allOn m) q rq).2 with
      | none => rw [hsm] at hu2; cases hu2
      | some md =>
        rw [hsm] at hu2
        rw [List.mem_singleton.mp hu2]
  -- rows whose hub id is no candidate's id are untouched by the updates
  have huntouched : ∀ x ∈ store, (∀ q ∈ chunk, x.hub_stock_id ≠ some q.offer_id) →
      applyAll U x = x := by
    intro x hx hne
    apply applyAll_not_target
    intro u hu hc
    obtain ⟨q, hq, rq, hgm, hpid⟩ := hUgen chunk (fun _ h => h) u (hUdef ▸ hu)
    obtain ⟨hrqs, hrqh⟩ := globalMatch_spec store _ _ hgm
    have hrqx : rq = x :=
      List.inj_on_of_nodup_map hidn hrqs hx (hpid.symm.trans hc)
    rw [hrqx] at hrqh
    exact hne q hq hrqh
  -- the matched row of a candidate ends up agreeing after the batch
  have hmatched : ∀ p ∈ chunk, ∀ r, globalMatch store p.offer_id = some r →
      agrees p (applyAll U r) ∧ (applyAll U r).id = r.id := by
    intro p hp r hgm
    obtain ⟨hrs, hrh⟩ := globalMatch_spec store _ _ hgm
    obtain ⟨l1, l2, hsplit⟩ := List.append_of_mem hp
    have hl1sub : ∀ x ∈ l1, x ∈ chunk := by
      intro x hx
      rw [hsplit]
      exact List.mem_append.mpr (Or.inl hx)
    have hl2sub : ∀ x ∈ l2, x ∈ chunk := by
      intro x hx
      rw [hsplit]
      exact List.mem_append.mpr (Or.inr (List.mem_cons_of_mem _ hx))
    have hcn' : ((l1 ++ p :: l2).map (fun p => p.offer_id)).Nodup := by
      rw [← hsplit]
      exact hcn
    rw [List.map_append, List.nodup_append] at hcn'
    have hl1ne : ∀ q ∈ l1, q.offer_id ≠ p.offer_id := by
      intro q hq hc
      apply hcn'.2.2 (List.mem_map_of_mem _ hq)
      rw [hc]
      exact List.mem_map_of_mem _ (List.mem_cons_self _ _)
    have hl2ne : ∀ q ∈ l2, q.offer_id ≠ p.offer_id := by
      intro q hq hc
      have hnd2 := hcn'.2.1
      rw [List.map_cons, List.nodup_cons] at hnd2
      exact hnd2.1 (hc ▸ List.mem_map_of_mem _ hq)
    have hno1 : ∀ u ∈ l1.flatMap fU, u.product_id ≠ r.id := by
      intro u hu hc
      obtain ⟨q, hq, rq, hgmq, hpid⟩ := hUgen l1 hl1sub u hu
      obtain ⟨hrqs, hrqh⟩ := globalMatch_spec store _ _ hgmq
      have hrqr : rq = r :=
        List.inj_on_of_nodup_map hidn hrqs hrs (hpid.symm.trans hc)
      rw [hrqr, hrh] at hrqh
      exact hl1ne q hq (Option.some_inj.mp hrqh).symm
    have hno2 : ∀ u ∈ l2.flatMap fU, u.product_id ≠ r.id := by
      intro u hu hc
      obtain ⟨q, hq, rq, hgmq, hpid⟩ := hUgen l2 hl2sub u hu
      obtain ⟨hrqs, hrqh⟩ := globalMatch_spec store _ _ hgmq
      have hrqr : rq = r :=
        List.inj_on_of_nodup_map hidn hrqs hrs (hpid.symm.trans hc)
      rw [hrqr, hrh] at hrqh
      exact hl2ne q hq (Option.some_inj.mp hrqh).symm
    have hUsplit : U = l1.flatMap fU ++ (fU p ++ l2.flatMap fU) := by
      rw [hUdef, hsplit, List.flatMap_append, List.flatMap_cons]
    have happ : applyAll U r = applyAll (fU p) r := by
      rw [hUsplit, applyAll_append, applyAll_not_target _ _ hno1, applyAll_append]
      apply applyAll_not_target
      intro u hu
      rw [applyAll_id]
      exact hno2 u hu
    have hfUp : fU p = (match (syncMatched (allOn m) p r).2 with
        | some md => [(⟨r.id, md, date⟩ : UpdateQuery)]
        | none => ([] : List UpdateQuery)) := by
      rw [hfUdef]
      simp only
      rw [hfounddef, hhe p hp,
        findMatch_filter_eq store idsl p.offer_id
          (by rw [hidsdef]; exact List.mem_map_of_mem _ hp),
        hgm]
    have hres := syncMatched_allOn_result m p r date
    rw [happ, hfUp]
    cases hsm : (syncMatched (allOn m) p r).2 with
    | none =>
      rw [hsm] at hres
      exact ⟨hres.1, rfl⟩
    | some md =>
      rw [hsm] at hres
      exact ⟨hres.1, hres.2.1⟩
  refine ⟨?_, ?_, ?_, ?_⟩
  · -- every candidate matched and agreeing afterwards
    intro p hp
    cases hgm : globalMatch store p.offer_id with
    | some r =>
      obtain ⟨hag, hidr⟩ := hmatched p hp r hgm
      refine ⟨applyAll U r, ?_, hag⟩
      rw [globalMatch_append_right_nil _ _ _ ?noins,
        globalMatch_map store _ hhub_g, hgm]
      · rfl
      case noins =>
        intro x hx hc
        obtain ⟨q, hq, hxh⟩ := insertRows_hub insertList nid x hx
        have hqIL := hILdef ▸ hq
        have hq' : q ∈ chunk := List.mem_of_mem_filter hqIL
        have hqun : (findMatch found q.hub_stock_id).isNone = true := by
          have := List.mem_filter.mp hqIL
          simpa using this.2
        rw [hxh] at hc
        have heq : q.hub_stock_id = p.offer_id := Option.some_inj.mp hc
        have heq2 : q.offer_id = p.offer_id := by
          rw [← hhe q hq']
          exact heq
        have hqp : q = p := List.inj_on_of_nodup_map hcn hq' hp heq2
        rw [hfounddef, hhe q hq',
          findMatch_filter_eq store idsl q.offer_id
            (by rw [hidsdef]; exact List.mem_map_of_mem _ hq'),
          heq2, hgm] at hqun
        cases hqun
    | none =>
      have hpun : (findMatch found p.hub_stock_id).isNone = true := by
        rw [hfounddef, hhe p hp,
          findMatch_filter_eq store idsl p.offer_id
            (by rw [hidsdef]; exact List.mem_map_of_mem _ hp),
          hgm]
        rfl
      have hpIL : p ∈ insertList := by
        rw [hILdef]
        exact List.mem_filter.mpr ⟨hp, by simpa using hpun⟩
      have hILsub : insertList.Sublist chunk := by
        rw [hILdef]
        exact List.filter_sublist chunk
      have hILnodup : (insertList.map (fun q => q.hub_stock_id)).Nodup := by
        have h1 : insertList.map (fun q => q.hub_stock_id) =
            insertList.map (fun q => q.offer_id) :=
          List.map_congr_left (fun q hq => hhe q (hILsub.subset hq))
        rw [h1]
        exact List.Nodup.sublist (List.Sublist.map _ hILsub) hcn
      obtain ⟨j, hfilter⟩ := insertRows_filter_single insertList nid p hpIL hILnodup
      refine ⟨newProductRow j p, ?_, ⟨rfl, rfl, rfl, rfl⟩⟩
      unfold globalMatch
      rw [List.filter_append]
      have hstore1nil : (store.map (applyAll U)).filter
          (fun r => decide (r.hub_stock_id = some p.offer_id)) = [] := by
        rw [filter_hub_map store _ hhub_g]
        have hnil : store.filter
            (fun r => decide (r.hub_stock_id = some p.offer_id)) = [] := by
          unfold globalMatch at hgm
          exact List.getLast?_eq_none_iff.mp hgm
        rw [hnil]
        rfl
      rw [hstore1nil, List.nil_append]
      have hpoh : p.offer_id = p.hub_stock_id := (hhe p hp).symm
      rw [hpoh, hfilter]
      rfl
  · -- other hub ids see the very same match as before
    intro h hnot
    rw [globalMatch_append_right_nil _ _ _ ?noins2,
      globalMatch_map store _ hhub_g]
    · cases hgm : globalMatch store h with
      | none => rfl
      | some x =>
        obtain ⟨hxs, hxh⟩ := globalMatch_spec store h x hgm
        have hux : applyAll U x = x := by
          apply huntouched x hxs
          intro q hq hc
          apply hnot
          rw [hxh] at hc
          rw [Option.some_inj.mp hc]
          exact List.mem_map_of_mem _ hq
        rw [Option.map_some', hux]
    case noins2 =>
      intro x hx hc
      obtain ⟨q, hq, hxh⟩ := insertRows_hub insertList nid x hx
      have hq' : q ∈ chunk := List.mem_of_mem_filter (hILdef ▸ hq)
      apply hnot
      rw [hxh] at hc
      have : q.hub_stock_id = h := Option.some_inj.mp hc
      rw [← this, hhe q hq']
      exact List.mem_map_of_mem _ hq'
  · -- internal ids stay duplicate-free
    rw [List.map_append]
    apply List.nodup_append.mpr
    refine ⟨?_, insertRows_id_nodup insertList nid, ?_⟩
    · rw [List.map_map]
      have hcomp : ((fun r : Product => r.id) ∘ applyAll U) =
          (fun r : Product => r.id) := by
        funext r
        exact applyAll_id U r
      rw [hcomp]
      exact hidn
    · intro a ha hb
      obtain ⟨x, hx, hxa⟩ := List.mem_map.mp ha
      obtain ⟨x2, hx2, hxx⟩ := List.mem_map.mp hx
      obtain ⟨y, hy, hya⟩ := List.mem_map.mp hb
      have h1 : a < nid := by
        rw [← hxa, ← hxx, applyAll_id]
        exact hfresh x2 hx2
      have h2 : nid ≤ a := by
        rw [← hya]
        exact (insertRows_id_bounds insertList nid y hy).1
      omega
  · -- freshness of the advanced cursor
    intro r hr
    have hlen : (0 : Int) ≤ (insertList.length : Int) := by positivity
    rcases List.mem_append.mp hr with h1 | h2
    · obtain ⟨x, hx, hxa⟩ := List.mem_map.mp h1
      rw [← hxa, applyAll_id]
      have := hfresh x hx
      omega
    · have := (insertRows_id_bounds insertList nid r h2).2
      omega

/-- Every product recorded by the document loop carries its offer id as hub
id, and — with the sweep flag on — its offer id enters the observed set;
the observed set only grows. -/
theorem parseElems_products (opts : Opts) :
    ∀ (feed : List OfferElem) (st st' : ParseState),
      parseElems opts feed st = .ok st' →
      (∀ s ∈ st.all_offer_ids, s ∈ st'.all_offer_ids) ∧
      (∀ p ∈ st'.chunks.flatten ++ st'.bucket,
        p ∈ st.chunks.flatten ++ st.bucket ∨
          (p.hub_stock_id = p.offer_id ∧
            (opts.mark_missing_unavailable = true →
              p.offer_id ∈ st'.all_offer_ids))) := by
  intro feed
  induction feed with
  | nil =>
    intro st st' h
    cases h
    exact ⟨fun s hs => hs, fun p hp => Or.inl hp⟩
  | cons e rest ih =>
    intro st st' h
    rw [parseElems] at h
    cases hstep : parseStep opts st e with
    | error err => rw [hstep] at h; cases h
    | ok st1 =>
      rw [hstep] at h
      obtain ⟨ihids, ihprod⟩ := ih st1 st' h
      unfold parseStep at hstep
      cases hattr : parseOfferAttrs e.attrs none NOT_AVAILABLE with
      | error err => rw [hattr] at hstep; cases hstep
      | ok pr =>
        rw [hattr] at hstep
        obtain ⟨oid, av⟩ := pr
        cases oid with
        | none =>
          simp only at hstep
          cases hstep
          refine ⟨ihids, ?_⟩
          intro p hp
          exact ihprod p hp
        | some i =>
          simp only at hstep
          cases hstep
          obtain ⟨rids, rprod, rmem⟩ :=
            recordOffer_products opts st (parseOfferEvents (Offer.new i av) .noField e.events)
          refine ⟨fun s hs => ihids s (rids s hs), ?_⟩
          intro p hp
          rcases ihprod p hp with h1 | h2
          · rcases rprod p h1 with h3 | hconv
            · exact Or.inl h3
            · refine Or.inr ⟨(convert_hub_eq _ _ hconv).1, ?_⟩
              intro hm
              exact ihids _ (rmem p hconv hm)
          · exact Or.inr h2

/-- Every product of a successfully parsed feed's chunk sequence carries its
offer id as hub id, and with the sweep flag on its offer id is in the final
observed set. -/
theorem parseChunks_products (opts : Opts) (feed : List OfferElem)
    (pst : ParseState) (h : parseChunks opts feed = .ok pst) :
    ∀ p ∈ pst.chunks.flatten,
      p.hub_stock_id = p.offer_id ∧
        (opts.mark_missing_unavailable = true →
          p.offer_id ∈ pst.all_offer_ids) := by
  unfold parseChunks at h
  cases hpe : parseElems opts feed initParseState with
  | error e => rw [hpe] at h; cases h
  | ok st =>
    rw [hpe] at h
    obtain ⟨hids, hprod⟩ := parseElems_products opts feed initParseState st hpe
    cases h
    intro p hp
    by_cases hb : st.bucket.isEmpty
    · rw [if_pos hb] at hp ⊢
      rcases hprod p (List.mem_append.mpr (Or.inl hp)) with h1 | h2
      · simp [initParseState, initStat] at h1
      · exact h2
    · rw [if_neg hb] at hp ⊢
      simp only [List.flatten_append, List.flatten_cons, List.flatten_nil,
        List.append_nil] at hp
      rcases hprod p hp with h1 | h2
      · simp [initParseState, initStat] at h1
      · exact h2

/-- Whatever the fuel and cursor, the sweep only rewrites rows pointwise,
and only rows whose hub id lies outside the observed set are ever marked. -/
theorem sweepLoop_shape (ids : List String) :
    ∀ (fuel : Nat) (store : List Product) (cursor : Int) (count : Nat),
      ∃ f : Product → Product,
        (sweepLoop ids fuel store cursor count).1 = store.map f ∧
        ∀ r : Product, f r = r ∨
          ((∀ h, r.hub_stock_id = some h → h ∉ ids) ∧ f r = markRow r) := by
  intro fuel
  induction fuel with
  | zero =>
    intro store cursor count
    refine ⟨fun r => r, ?_, fun r => Or.inl rfl⟩
    rw [sweepLoop]
    simp
  | succ n ih =>
    intro store cursor count
    by_cases hpe : (scanPage store cursor).isEmpty
    · refine ⟨fun r => r, ?_, fun r => Or.inl rfl⟩
      rw [sweepLoop]
      simp only [hpe, if_true]
      simp
    · rw [sweepLoop_succ ids n store cursor count (Bool.not_eq_true _ ▸ hpe)]
      obtain ⟨f, hmap, hf⟩ := ih
        (markMissingRows store (pageMissing ids (scanPage store cursor)))
        (((scanPage store cursor).getLast?.map (fun r => r.id)).getD cursor)
        (count + (pageMissing ids (scanPage store cursor)).length)
      set missing := pageMissing ids (scanPage store cursor) with hmdef
      have hmiss : ∀ h ∈ missing, h ∉ ids := by
        intro h hh
        obtain ⟨r, _, _, hc⟩ := (mem_pageMissing ids (scanPage store cursor) h).mp hh
        intro hin
        have hnot : h ∉ ids := by simpa using hc
        exact hnot hin
      refine ⟨fun r => f (if markedB missing r then markRow r else r), ?_, ?_⟩
      · rw [hmap, markMissingRows_eq_map, List.map_map]
        rfl
      · intro r
        have hgoal : f (if markedB missing r then markRow r else r) = r ∨
            ((∀ h, r.hub_stock_id = some h → h ∉ ids) ∧
             f (if markedB missing r then markRow r else r) = markRow r) := by
          by_cases hmk : markedB missing r
          · have hout : ∀ h, r.hub_stock_id = some h → h ∉ ids := by
              intro h hh
              unfold markedB at hmk
              rw [hh] at hmk
              exact hmiss h (by simpa using hmk)
            rcases hf (markRow r) with h1 | h2
            · refine Or.inr ⟨hout, ?_⟩
              rw [if_pos hmk, h1]
            · refine Or.inr ⟨hout, ?_⟩
              rw [if_pos hmk, h2.2]
              rfl
          · rcases hf r with h1 | h2
            · refine Or.inl ?_
              rw [if_neg hmk, h1]
            · refine Or.inr ⟨h2.1, ?_⟩
              rw [if_neg hmk, h2.2]
        exact hgoal

/-- Syncing a chunk whose candidates all agree with their current match:
zero counters, no update statements, no inserts, store and cursor kept. -/
theorem sync_chunk_agree_zero (opts : Opts) (store : List Product)
    (chunk : List NewProduct) (date : Nat) (nid : Int)
    (hhe : ∀ p ∈ chunk, p.hub_stock_id = p.offer_id)
    (hag : ∀ p ∈ chunk, ∃ r, globalMatch store p.offer_id = some r ∧ agrees p r) :
    (sync_products_chunk store chunk opts date nid).1.stat = ⟨0, 0, 0⟩ ∧
    (sync_products_chunk store chunk opts date nid).1.store = store ∧
    (sync_products_chunk store chunk opts date nid).2 = nid := by
  have hfm : ∀ p ∈ chunk, ∃ r,
      findMatch (store.filter (hubMatches (chunk.map (fun q => q.offer_id))))
        p.hub_stock_id = some r ∧ agrees p r := by
    intro p hp
    obtain ⟨r, hgm, ha⟩ := hag p hp
    refine ⟨r, ?_, ha⟩
    rw [hhe p hp,
      findMatch_filter_eq store _ p.offer_id (List.mem_map_of_mem _ hp)]
    exact hgm
  have hsm : ∀ (p : NewProduct) (r : Product), agrees p r →
      syncMatched opts p r = ((0, 0), none) := by
    intro p r ha
    obtain ⟨h1, h2, h3, h4⟩ := ha
    simp [syncMatched, h1, h2, h3, h4]
  have hfilter : chunk.filter (fun p =>
      (findMatch (store.filter (hubMatches (chunk.map (fun q => q.offer_id))))
        p.hub_stock_id).isNone) = [] := by
    apply List.filter_eq_nil_iff.mpr
    intro p hp
    obtain ⟨r, hfm', _⟩ := hfm p hp
    simp [hfm']
  refine ⟨?_, ?_, ?_⟩
  · rw [sync_stat_spec]
    have hz1 : chunk.countP (fun p =>
        match findMatch (store.filter (hubMatches (chunk.map (fun q => q.offer_id))))
            p.hub_stock_id with
        | some r => decide (p.price ≠ r.price ∨ p.oldprice ≠ r.oldprice ∨
            p.currencyId ≠ r.currencyId)
        | none => false) = 0 := by
      apply List.countP_eq_zero.mpr
      intro p hp
      obtain ⟨r, hfm', ha⟩ := hfm p hp
      simp only [hfm']
      simp [ha.2.1, ha.2.2.1, ha.2.2.2]
    have hz2 : chunk.countP (fun p =>
        match findMatch (store.filter (hubMatches (chunk.map (fun q => q.offer_id))))
            p.hub_stock_id with
        | some r => decide (some p.available ≠ r.available)
        | none => false) = 0 := by
      apply List.countP_eq_zero.mpr
      intro p hp
      obtain ⟨r, hfm', ha⟩ := hfm p hp
      simp only [hfm']
      simp [ha.1]
    have hz3 : chunk.countP (fun p =>
        (findMatch (store.filter (hubMatches (chunk.map (fun q => q.offer_id))))
          p.hub_stock_id).isNone) = 0 := by
      apply List.countP_eq_zero.mpr
      intro p hp
      obtain ⟨r, hfm', _⟩ := hfm p hp
      simp [hfm']
    rw [hz1, hz2, hz3]
  · rw [sync_store_spec]
    have hfl : chunk.flatMap (fun p =>
        match findMatch (store.filter (hubMatches (chunk.map (fun q => q.offer_id))))
            p.hub_stock_id with
        | some r =>
          (match (syncMatched opts p r).2 with
           | some md => [(⟨r.id, md, date⟩ : UpdateQuery)]
           | none => [])
        | none => []) = [] := by
      apply List.flatMap_eq_nil_iff.mpr
      intro p hp
      obtain ⟨r, hfm', ha⟩ := hfm p hp
      simp only [hfm']
      rw [hsm p r ha]
    rw [hfl, hfilter]
    cases opts.insert_new <;> simp [applyUpdates, insertRows]
  · rw [sync_nextId_spec, hfilter]
    cases opts.insert_new <;> simp

/-- A full run over a store every candidate already agrees with is a no-op:
counters untouched, store and cursor returned as-is. -/
theorem run_sync_agree_zero (opts : Opts) (date : Nat) :
    ∀ (cs : List (List NewProduct)) (store : List Product) (nid : Int)
      (stats : ProcessedProducts),
      (∀ p ∈ cs.flatten, p.hub_stock_id = p.offer_id) →
      (∀ p ∈ cs.flatten, ∃ r, globalMatch store p.offer_id = some r ∧ agrees p r) →
      run_sync opts date cs (store, nid, stats) = (store, nid, stats) := by
  intro cs
  induction cs with
  | nil => intro store nid stats _ _; rfl
  | cons c cs' ih =>
    intro store nid stats hhe hag
    obtain ⟨s1, s2, s3⟩ := stats
    rw [List.flatten_cons] at hhe hag
    have hhe1 : ∀ p ∈ c, p.hub_stock_id = p.offer_id := fun p hp =>
      hhe p (List.mem_append.mpr (Or.inl hp))
    have hhe2 : ∀ p ∈ cs'.flatten, p.hub_stock_id = p.offer_id := fun p hp =>
      hhe p (List.mem_append.mpr (Or.inr hp))
    have hag1 : ∀ p ∈ c, ∃ r, globalMatch store p.offer_id = some r ∧ agrees p r :=
      fun p hp => hag p (List.mem_append.mpr (Or.inl hp))
    have hag2 : ∀ p ∈ cs'.flatten,
        ∃ r, globalMatch store p.offer_id = some r ∧ agrees p r :=
      fun p hp => hag p (List.mem_append.mpr (Or.inr hp))
    obtain ⟨hs0, hst0, hn0⟩ := sync_chunk_agree_zero opts store c date nid hhe1 hag1
    have hstep : run_sync opts date (c :: cs') (store, nid, ⟨s1, s2, s3⟩) =
        run_sync opts date cs'
          ((sync_products_chunk store c opts date nid).1.store,
           (sync_products_chunk store c opts date nid).2,
           ⟨s1 + (sync_products_chunk store c opts date nid).1.stat.updated_price,
            s2 + (sync_products_chunk store c opts date nid).1.stat.updated_available,
            s3 + (sync_products_chunk store c opts date nid).1.stat.inserted⟩) := rfl
    rw [hstep, hst0, hn0, hs0]
    simpa using ih store nid ⟨s1, s2, s3⟩ hhe2 hag2

/-- Every store row's id is bounded by the fold computing the maximum id. -/
theorem maxId_ge_aux :
    ∀ (store : List Product) (a : Int),
      (∀ r ∈ store, r.id ≤ store.foldl (fun acc r => max acc r.id) a) ∧
        a ≤ store.foldl (fun acc r => max acc r.id) a := by
  intro store
  induction store with
  | nil =>
    intro a
    exact ⟨fun r hr => absurd hr (List.not_mem_nil r), le_refl a⟩
  | cons x rest ih =>
    intro a
    rw [List.foldl_cons]
    constructor
    · intro r hr
      rcases List.mem_cons.mp hr with rfl | hr2
      · exact le_trans (le_max_right a r.id) (ih (max a r.id)).2
      · exact (ih (max a x.id)).1 r hr2
    · exact le_trans (le_max_left a x.id) (ih (max a x.id)).2

/-- The auto-increment base dominates every existing id. -/
theorem maxId_ge (store : List Product) (r : Product) (hr : r ∈ store) :
    r.id ≤ maxId store :=
  (maxId_ge_aux store 0).1 r hr

/-- Folding all-writes-enabled chunk syncs over a duplicate-free catalog:
every candidate ends up matched by an agreeing row, foreign hub ids keep
their original match, and the id invariants persist. -/
theorem run_sync_allOn (m : Bool) (date : Nat) :
    ∀ (cs : List (List NewProduct)) (store : List Product) (nid : Int)
      (stats : ProcessedProducts),
      (store.map (fun r => r.id)).Nodup →
      (∀ r ∈ store, r.id < nid) →
      (cs.flatten.map (fun p => p.offer_id)).Nodup →
      (∀ p ∈ cs.flatten, p.hub_stock_id = p.offer_id) →
      (∀ p ∈ cs.flatten, ∃ r,
        globalMatch (run_sync (allOn m) date cs (store, nid, stats)).1
          p.offer_id = some r ∧ agrees p r) ∧
      (∀ h : String, h ∉ cs.flatten.map (fun p => p.offer_id) →
        globalMatch (run_sync (allOn m) date cs (store, nid, stats)).1 h =
          globalMatch store h) ∧
      (((run_sync (allOn m) date cs (store, nid, stats)).1.map
        (fun r => r.id)).Nodup) ∧
      (∀ r ∈ (run_sync (allOn m) date cs (store, nid, stats)).1,
        r.id < (run_sync (allOn m) date cs (store, nid, stats)).2.1) := by
  intro cs
  induction cs with
  | nil =>
    intro store nid stats hidn hfresh hnd hhe
    refine ⟨?_, fun h _ => rfl, hidn, hfresh⟩
    intro p hp
    simp at hp
  | cons c cs' ih =>
    intro store nid stats hidn hfresh hnd hhe
    have hrs : run_sync (allOn m) date (c :: cs') (store, nid, stats) =
        run_sync (allOn m) date cs'
          ((sync_products_chunk store c (allOn m) date nid).1.store,
           (sync_products_chunk store c (allOn m) date nid).2,
           ⟨stats.updated_price +
              (sync_products_chunk store c (allOn m) date nid).1.stat.updated_price,
            stats.updated_available +
              (sync_products_chunk store c (allOn m) date nid).1.stat.updated_available,
            stats.inserted +
              (sync_products_chunk store c (allOn m) date nid).1.stat.inserted⟩) := rfl
    rw [List.flatten_cons, List.map_append, List.nodup_append] at hnd
    obtain ⟨hnd1, hnd2, hdisj⟩ := hnd
    rw [List.flatten_cons] at hhe
    have hhe1 : ∀ p ∈ c, p.hub_stock_id = p.offer_id := fun p hp =>
      hhe p (List.mem_append.mpr (Or.inl hp))
    have hhe2 : ∀ p ∈ cs'.flatten, p.hub_stock_id = p.offer_id := fun p hp =>
      hhe p (List.mem_append.mpr (Or.inr hp))
    obtain ⟨hA, hB, hC, hD⟩ :=
      sync_chunk_allOn m store c date nid hidn hfresh hnd1 hhe1
    obtain ⟨ihA, ihB, ihC, ihD⟩ := ih _ _
      (⟨stats.updated_price +
          (sync_products_chunk store c (allOn m) date nid).1.stat.updated_price,
        stats.updated_available +
          (sync_products_chunk store c (allOn m) date nid).1.stat.updated_available,
        stats.inserted +
          (sync_products_chunk store c (allOn m) date nid).1.stat.inserted⟩)
      hC hD hnd2 hhe2
    rw [hrs]
    refine ⟨?_, ?_, ihC, ihD⟩
    · intro p hp
      rw [List.flatten_cons] at hp
      rcases List.mem_append.mp hp with h1 | h2
      · obtain ⟨r, hgm, hag⟩ := hA p h1
        refine ⟨r, ?_, hag⟩
        rw [ihB p.offer_id (hdisj (List.mem_map_of_mem _ h1))]
        exact hgm
      · exact ihA p h2
    · intro h hnot
      rw [List.flatten_cons, List.map_append] at hnot
      have hnot1 : h ∉ c.map (fun p => p.offer_id) := fun hc =>
        hnot (List.mem_append.mpr (Or.inl hc))
      have hnot2 : h ∉ cs'.flatten.map (fun p => p.offer_id) := fun hc =>
        hnot (List.mem_append.mpr (Or.inr hc))
      rw [ihB h hnot2]
      exact hB h hnot1

/-- After one run with every write flag enabled (over a duplicate-free feed
and store), the resulting store carries an agreeing match for every
candidate the parse recorded. -/
theorem run1_store_agrees (m : Bool) (feed : List OfferElem)
    (store0 : List Product) (d1 : Nat) (pst : ParseState) (r1 : RunResult)
    (hp : parseChunks (allOn m) feed = .ok pst)
    (hnd : (pst.chunks.flatten.map (fun p => p.offer_id)).Nodup)
    (hidn : (store0.map (fun r => r.id)).Nodup)
    (h1 : process_offers (allOn m) feed store0 d1 = .ok r1) :
    ∀ p ∈ pst.chunks.flatten, ∃ r,
      globalMatch r1.store p.offer_id = some r ∧ agrees p r := by
  have hprods := parseChunks_products (allOn m) feed pst hp
  have hhe : ∀ p ∈ pst.chunks.flatten, p.hub_stock_id = p.offer_id :=
    fun p hp' => (hprods p hp').1
  have hfresh : ∀ r ∈ store0, r.id < maxId store0 + 1 := by
    intro r hr
    have := maxId_ge store0 r hr
    omega
  obtain ⟨hA, hB, hC, hD⟩ := run_sync_allOn m d1 pst.chunks store0
    (maxId store0 + 1) ⟨0, 0, 0⟩ hidn hfresh hnd hhe
  simp only [process_offers] at h1
  rw [hp] at h1
  simp only at h1
  set S := run_sync (allOn m) d1 pst.chunks (store0, maxId store0 + 1, ⟨0, 0, 0⟩)
    with hSdef
  cases m with
  | false =>
    rw [show (allOn false).mark_missing_unavailable = false from rfl] at h1
    simp only [Bool.false_eq_true, if_false] at h1
    cases h1
    exact hA
  | true =>
    rw [show (allOn true).mark_missing_unavailable = true from rfl,
      if_pos rfl] at h1
    cases h1
    intro p hp'
    obtain ⟨r, hgm, hag⟩ := hA p hp'
    obtain ⟨f, hmap, hf⟩ := sweepLoop_shape pst.all_offer_ids
      (S.1.length + 1) S.1 0 0
    have hhub : ∀ x, (f x).hub_stock_id = x.hub_stock_id := by
      intro x
      rcases hf x with hfx | hfx
      · rw [hfx]
      · rw [hfx.2]
        rfl
    obtain ⟨hrs, hrhub⟩ := globalMatch_spec S.1 p.offer_id r hgm
    have hmem : p.offer_id ∈ pst.all_offer_ids := (hprods p hp').2 rfl
    have hfr : f r = r := by
      rcases hf r with hfx | hfx
      · exact hfx
      · exact absurd hmem (hfx.1 p.offer_id hrhub)
    refine ⟨r, ?_, hag⟩
    show globalMatch (mark_missing_as_unavailable S.1 pst.all_offer_ids).1
      p.offer_id = some r
    unfold mark_missing_as_unavailable
    rw [hmap, globalMatch_map S.1 f hhub, hgm, Option.map_some', hfr]

/-- C5: For a fixed feed and initial store, running the full reconciliation
twice with all write flags enabled yields zero availability-changed, zero
price-changed and zero inserted counts on the second run — provided the
feed's recorded candidates carry pairwise distinct offer ids and the
store's internal ids are duplicate-free (the unqualified claim fails, see
the counterexample). -/
theorem C5_idempotent_reconciliation (m : Bool) (feed : List OfferElem)
    (store0 : List Product) (d1 d2 : Nat) (pst : ParseState)
    (r1 r2 : RunResult)
    (hp : parseChunks (allOn m) feed = .ok pst)
    (hnd : (pst.chunks.flatten.map (fun p => p.offer_id)).Nodup)
    (hidn : (store0.map (fun r => r.id)).Nodup)
    (h1 : process_offers (allOn m) feed store0 d1 = .ok r1)
    (h2 : process_offers (allOn m) feed r1.store d2 = .ok r2) :
    r2.stat.updated_price = 0 ∧ r2.stat.updated_available = 0 ∧
      r2.stat.inserted_products = 0 := by
  have hag := run1_store_agrees m feed store0 d1 pst r1 hp hnd hidn h1
  have hhe : ∀ p ∈ pst.chunks.flatten, p.hub_stock_id = p.offer_id :=
    fun p hp' => (parseChunks_products (allOn m) feed pst hp p hp').1
  have hz := run_sync_agree_zero (allOn m) d2 pst.chunks r1.store
    (maxId r1.store + 1) ⟨0, 0, 0⟩ hhe hag
  simp only [process_offers] at h2
  rw [hp] at h2
  simp only at h2
  rw [hz] at h2
  cases m with
  | false =>
    rw [show (allOn false).mark_missing_unavailable = false from rfl] at h2
    simp only [Bool.false_eq_true, if_false] at h2
    cases h2
    exact ⟨rfl, rfl, rfl⟩
  | true =>
    rw [show (allOn true).mark_missing_unavailable = true from rfl,
      if_pos rfl] at h2
    cases h2
    exact ⟨rfl, rfl, rfl⟩

/-- C5 counterexample: with a feed repeating one offer id against a store
already carrying that hub id, the second all-writes run still reports a
price-group update — the unqualified idempotence claim is false. -/
theorem C5_counterexample :
    (exRun (process_offers (allOn false) c5Feed
      (exRun (process_offers (allOn false) c5Feed c5Store 0)).store
      0)).stat.updated_price ≠ 0 := by
  decide

/-- C5 witness: the amended idempotence theorem applied to a concrete
one-offer feed over an empty store. -/
theorem C5_idempotent_reconciliation_witness :
    c5wRun2.stat.updated_price = 0 ∧ c5wRun2.stat.updated_available = 0 ∧
      c5wRun2.stat.inserted_products = 0 :=
  C5_idempotent_reconciliation false [validElem "a"] [] 0 0
    (exParse (parseChunks (allOn false) [validElem "a"])) c5wRun1 c5wRun2
    rfl (by decide) (by decide) rfl rfl
